import Mathlib

/-!
Verification development for the BCH NFT bouncer bot.

This file gives a shallow embedding, in Lean 4, of the core data model and
operations of the bot: the challenge message renderer and parser and the
signed-message verifier (src/blockchain/verify.ts), the SQLite-backed
verification store (src/storage/db.ts, src/storage/queries.ts), the token
ownership oracle (src/blockchain/nft.ts), and the reconciliation loop over
monitored addresses (the monitor revisions), together with theorems settling
the specification's claims about them.

Conventions:
* JavaScript strings are modelled as Lean `String`/`List Char`.
* SQLite tables are lists of row structures; `NULL`able columns are `Option`.
* Stateful handlers become pure functions from inputs and table states to
  new table states, paired with a trace of external effects (Telegram API
  calls) in the order the source issues them.
* Fallible database writes (UNIQUE-constraint violations raise in
  better-sqlite3) return `Option`, `none` meaning the statement threw and
  the table is unchanged.
-/

namespace NftBouncer

/-- ASCII lower-casing of a character, as `String.prototype.toLowerCase`
and case-insensitive regex matching act on the ASCII strings (hex category
identifiers, literal keywords) this program compares. -/
def lowerChar (c : Char) : Char :=
  if 'A' ≤ c ∧ c ≤ 'Z' then Char.ofNat (c.toNat + 32) else c

/-- Lower-case every character of a string (JS `toLowerCase` on ASCII). -/
def lowerStr (s : String) : String :=
  String.mk (s.data.map lowerChar)

/-- Decimal digit test, as the regex class `\d` (ASCII only). -/
def isDigitCh (c : Char) : Bool :=
  '0' ≤ c && c ≤ '9'

/-- Hex digit test, as the regex class `[a-f0-9]` under the `i` flag
(which also admits `A`-`F`). -/
def isHexCh (c : Char) : Bool :=
  isDigitCh c || ('a' ≤ c && c ≤ 'f') || ('A' ≤ c && c ≤ 'F')

/-- Lower-case hex digit test (`[a-f0-9]` without the `i` flag); the nonce
`crypto.randomBytes(16).toString('hex')` consists of such characters. -/
def isLowerHexCh (c : Char) : Bool :=
  isDigitCh c || ('a' ≤ c && c ≤ 'f')

/-! ## Signed-message verifier (src/src/blockchain/verify.ts) -/

/-- Embedding of `varintEncode` from src/src/blockchain/verify.ts: Bitcoin
varint encoding of a length. The source throws for values above
`0xffffffff`; the throw is modelled as `none`. -/
def varintEncode (n : Nat) : Option (List Nat) :=
  if n < 0xfd then some [n]
  else if n ≤ 0xffff then some [0xfd, n % 256, (n / 256) % 256]
  else if n ≤ 0xffffffff then
    some [0xfe, n % 256, (n / 256) % 256, (n / 65536) % 256, (n / 16777216) % 256]
  else none

/-- The byte prefix `"\x18Bitcoin Signed Message:\n"` used by
`createMessageHash` in src/src/blockchain/verify.ts. -/
def messagePrefixBytes : List Nat :=
  0x18 :: ("Bitcoin Signed Message:\n".data.map Char.toNat)

/-- Embedding of the double-SHA256 preimage assembled by `createMessageHash`
in src/src/blockchain/verify.ts (prefix, varint of the message byte length,
message bytes). SHA256 itself is total on byte strings and its value is
never inspected by `verifySignedMessage`, so only the preimage assembly -
the one fallible step, via `varintEncode` - is modelled. -/
def createMessagePreimage (msgBytes : List Nat) : Option (List Nat) :=
  (varintEncode msgBytes.length).map
    (fun v => messagePrefixBytes ++ v ++ msgBytes)

/-- Embedding of `verifySignedMessage` from src/src/blockchain/verify.ts
(the revision under src/). `msgBytes` is the UTF-8 encoding of the message,
`sigBytes` the base64 decode of the signature argument (`Buffer.from(...,
'base64')` is total). The address argument is carried but, as in the
source, never influences the result: after the length check and the
recovery-flag range check the source computes the message hash and then
returns `true` without any ECDSA recovery. An exception while hashing
(only possible from `varintEncode`) is caught and yields `false`. -/
def verifySignedMessage (msgBytes : List Nat) (sigBytes : List Nat)
    (expectedAddress : String) : Bool :=
  if sigBytes.length ≠ 65 then false
  else
    let recoveryFlag := sigBytes.headD 0
    if recoveryFlag < 27 || recoveryFlag > 34 then false
    else
      match createMessagePreimage msgBytes with
      | none => false
      | some _ => let _ := expectedAddress; true

/-! ## Challenge message render and parse (src/src/blockchain/verify.ts) -/

/-- The character for a decimal digit value (used to model JavaScript's
decimal rendering of numbers in template literals). -/
def digitCh (d : Nat) : Char :=
  match d with
  | 0 => '0' | 1 => '1' | 2 => '2' | 3 => '3' | 4 => '4'
  | 5 => '5' | 6 => '6' | 7 => '7' | 8 => '8' | _ => '9'

/-- Decimal rendering of a natural number, most significant digit first,
as JavaScript renders an integral number in a template literal. -/
def natToChars (n : Nat) : List Char :=
  if _h : n < 10 then [digitCh n]
  else natToChars (n / 10) ++ [digitCh (n % 10)]
termination_by n
decreasing_by exact Nat.div_lt_self (by omega) (by omega)

/-- Decimal rendering of an integer (a `-` sign then the digits when
negative), as JavaScript renders e.g. a negative Telegram chat id. -/
def intToChars (i : Int) : List Char :=
  if i < 0 then '-' :: natToChars i.natAbs else natToChars i.toNat

/-- Numeric value of a most-significant-first digit string, as
`parseInt(_, 10)` computes it on a string of decimal digits. -/
def natOfDigits (ds : List Char) : Nat :=
  ds.foldl (fun acc c => 10 * acc + (c.toNat - 48)) 0

/-- Embedding of `generateChallengeMessage` from
src/src/blockchain/verify.ts. The source takes the timestamp from
`Date.now()`; here it is an explicit input. The result is the character
list of the template literal
`Verify NFT ownership for "NAME" (ID)\nnonce=NONCE\ntime=TS`. -/
def generateChallengeMessage (groupName : List Char) (groupId : Int)
    (nonce : List Char) (timestamp : Nat) : List Char :=
  "Verify NFT ownership for \"".data ++ groupName ++ "\" (".data ++
    intToChars groupId ++ [')', '\n'] ++
    "nonce=".data ++ nonce ++ ['\n'] ++
    "time=".data ++ natToChars timestamp

/-- JavaScript `String.prototype.split('\n')` on a character list. -/
def splitLines : List Char → List (List Char)
  | [] => [[]]
  | c :: cs =>
    if c = '\n' then [] :: splitLines cs
    else
      match splitLines cs with
      | l :: ls => (c :: l) :: ls
      | [] => [[c]]

/-- Matching of the first challenge line against `/\((-?\d+)\)$/`: the line
must end in a parenthesized optionally-signed digit run, whose `parseInt`
value is returned. Since the regex is anchored at the end of the line, the
captured digits are exactly the maximal digit run before the final `)`,
preceded by `(` or by `-` preceded by `(`. -/
def matchGroupLine (s : List Char) : Option Int :=
  match s.reverse with
  | [] => none
  | c0 :: body =>
    if c0 = ')' then
      let ds := body.takeWhile isDigitCh
      if ds = [] then none
      else
        match body.drop ds.length with
        | [] => none
        | c1 :: rest1 =>
          if c1 = '-' then
            match rest1 with
            | [] => none
            | c2 :: _ =>
              if c2 = '(' then some (-(natOfDigits ds.reverse : Int)) else none
          else if c1 = '(' then some ((natOfDigits ds.reverse : Int))
          else none
    else none

/-- Matching of the second challenge line against `/^nonce=([a-f0-9]+)$/i`:
the first six characters must case-insensitively be `nonce=` and the
remainder must be a nonempty run of hex digits (upper or lower case, per
the `i` flag), which is returned as captured. -/
def matchNonceLine (s : List Char) : Option (List Char) :=
  let key := s.take 6
  let rest := s.drop 6
  if key.map lowerChar = "nonce=".data ∧ rest ≠ [] ∧ rest.all isHexCh then
    some rest
  else none

/-- Matching of the third challenge line against `/^time=(\d+)$/`: the
first five characters must be exactly `time=` and the remainder a nonempty
digit run, whose `parseInt` value is returned. -/
def matchTimeLine (s : List Char) : Option Nat :=
  let key := s.take 5
  let rest := s.drop 5
  if key = "time=".data ∧ rest ≠ [] ∧ rest.all isDigitCh then
    some (natOfDigits rest)
  else none

/-- The record returned by `parseChallengeMessage` on success. -/
structure ChallengeParts where
  groupId : Int
  nonce : List Char
  timestamp : Nat
deriving DecidableEq

/-- Embedding of `parseChallengeMessage` from src/src/blockchain/verify.ts:
split on newlines, require at least three lines, match each of the first
three lines against its regex, and fail (return `null`, here `none`)
otherwise. -/
def parseChallengeMessage (message : List Char) : Option ChallengeParts :=
  match splitLines message with
  | l0 :: l1 :: l2 :: _ =>
    match matchGroupLine l0, matchNonceLine l1, matchTimeLine l2 with
    | some g, some n, some t => some ⟨g, n, t⟩
    | _, _, _ => none
  | _ => none

/-- The three-line challenge format, stated structurally from the spec's
description of `render`: a first line ending in a parenthesized
optionally-negated integer, a `nonce=<hex>` line (keyword case-insensitive,
per the source regex's `i` flag), and a `time=<unix-seconds>` line. -/
def groupLineFormat (s : List Char) : Prop :=
  ∃ pre sign ds, (sign = ([] : List Char) ∨ sign = ['-']) ∧ ds ≠ [] ∧
    (∀ c ∈ ds, isDigitCh c) ∧ s = pre ++ '(' :: (sign ++ ds ++ [')'])

/-- Second-line shape: case-insensitive `nonce=` then nonempty hex. -/
def nonceLineFormat (s : List Char) : Prop :=
  ∃ key h, s = key ++ h ∧ key.map lowerChar = "nonce=".data ∧ h ≠ [] ∧
    (∀ c ∈ h, isHexCh c)

/-- Third-line shape: literal `time=` then a nonempty digit run. -/
def timeLineFormat (s : List Char) : Prop :=
  ∃ ds, ds ≠ [] ∧ (∀ c ∈ ds, isDigitCh c) ∧ s = "time=".data ++ ds

/-- A text is in the three-line challenge format when it splits into at
least three lines whose first three are shaped as above. -/
def challengeFormat (message : List Char) : Prop :=
  ∃ l0 l1 l2 rest, splitLines message = l0 :: l1 :: l2 :: rest ∧
    groupLineFormat l0 ∧ nonceLineFormat l1 ∧ timeLineFormat l2

/-! ## Verification store (src/src/storage/db.ts, src/src/storage/queries.ts)

The `verifications` table. Its schema (src/src/storage/db.ts) declares
`UNIQUE(nft_category, nft_commitment, group_id)` and, after the migration
in `initializeDatabase`, a `status TEXT DEFAULT 'active'` column. The
monitor revisions treat `nft_category` as nullable, so it is `Option`
here. SQLite treats `NULL` values in a unique index as distinct from
everything, so only rows whose indexed columns are all non-`NULL` and
pairwise equal conflict. -/

/-- A row of the `verifications` table (a Binding, in the spec's terms). -/
structure VerRow where
  id : Nat
  telegram_user_id : Int
  telegram_username : Option String
  group_id : Int
  nft_category : Option String
  nft_commitment : Option String
  bch_address : String
  status : String
deriving DecidableEq

/-- The `verifications` table. -/
abbrev VerTable := List VerRow

/-- Whether two rows collide on the schema's
`UNIQUE(nft_category, nft_commitment, group_id)` index: all three indexed
columns non-distinct in SQLite's sense, i.e. `group_id` equal and both
nullable columns non-`NULL` and equal. -/
def rowConflictB (a b : VerRow) : Bool :=
  (a.group_id == b.group_id) &&
    (match a.nft_category, b.nft_category with
     | some x, some y => x == y
     | _, _ => false) &&
    (match a.nft_commitment, b.nft_commitment with
     | some x, some y => x == y
     | _, _ => false)

/-- The unique-index invariant of the `verifications` table: no two
distinct rows collide on `(nft_category, nft_commitment, group_id)`. -/
def perGroupUniqueB : VerTable → Bool
  | [] => true
  | r :: rs => rs.all (fun x => !rowConflictB r x) && perGroupUniqueB rs

/-- Pairwise distinctness of the `id` primary-key column (guaranteed by
`INTEGER PRIMARY KEY AUTOINCREMENT`). -/
def idsNodupB : VerTable → Bool
  | [] => true
  | r :: rs => rs.all (fun x => !(x.id == r.id)) && idsNodupB rs

/-- The next `AUTOINCREMENT` row id for the table. -/
def nextVerId (t : VerTable) : Nat :=
  (t.map VerRow.id).foldr max 0 + 1

/-- Embedding of `addVerification` from src/src/storage/queries.ts: insert
a row with the given columns; `status` takes its schema default
`'active'`. The insert throws (`none`) when the new row collides with an
existing row on the unique index, leaving the table unchanged. -/
def addVerification (t : VerTable) (telegramUserId : Int)
    (telegramUsername : Option String) (groupId : Int) (nftCategory : String)
    (nftCommitment : Option String) (bchAddress : String) : Option VerTable :=
  let row : VerRow :=
    { id := nextVerId t, telegram_user_id := telegramUserId,
      telegram_username := telegramUsername, group_id := groupId,
      nft_category := some nftCategory, nft_commitment := nftCommitment,
      bch_address := bchAddress, status := "active" }
  if t.any (fun r => rowConflictB row r) then none else some (t ++ [row])

/-- Embedding of `deleteVerification` from src/src/storage/queries.ts:
`DELETE FROM verifications WHERE id = ?`. -/
def deleteVerification (t : VerTable) (id : Nat) : VerTable :=
  t.filter (fun r => !(r.id == id))

/-- Modelled from the spec: `updateVerificationStatus(id, status,
nftCategory?, nftCommitment?)`, the Verification Store write used by the
monitor revisions (part_010/part_011) to persist a decision's new status
and, when provided, its new asset reference; its defining queries revision
is not under src/, only its import sites and call sites are. Per the spec
it sets `status` and optionally rewrites the asset reference of the row
with the given id; as an SQLite UPDATE against the schema of
src/src/storage/db.ts it throws (`none`, table unchanged) when the updated
row would collide with a different row on the unique index. `newCat` /
`newComm` are `none` when the optional argument is omitted. The per-row
column rewrite is split out as `applyStatusUpd`. -/
def applyStatusUpd (id : Nat) (status : String) (newCat : Option String)
    (newComm : Option (Option String)) (r : VerRow) : VerRow :=
  if r.id = id then
    { r with status := status,
             nft_category := (newCat.map Option.some).getD r.nft_category,
             nft_commitment := newComm.getD r.nft_commitment }
  else r

/-- The unique-index check an UPDATE of row `id` is subject to: the
updated row must not collide with any distinct row. -/
def updConflictB (t' : VerTable) (id : Nat) : Bool :=
  t'.any (fun a => (a.id == id) &&
    t'.any (fun b => !(b.id == id) && rowConflictB a b))

def updateVerificationStatus (t : VerTable) (id : Nat) (status : String)
    (newCat : Option String) (newComm : Option (Option String)) :
    Option VerTable :=
  let t' := t.map (applyStatusUpd id status newCat newComm)
  if updConflictB t' id then none else some t'

/-- Modelled from the spec: `updateVerificationNft(id, category,
commitment)`, the Verification Store write used by the auto-switch
(rebind) path of the monitor revisions; its defining queries revision is
not under src/. It rewrites the asset reference of the row with the given
id, and as an SQLite UPDATE it throws (`none`, table unchanged) on a
unique-index collision with a different row. -/
def applyNftUpd (id : Nat) (category : String) (commitment : Option String)
    (r : VerRow) : VerRow :=
  if r.id = id then
    { r with nft_category := some category, nft_commitment := commitment }
  else r

def updateVerificationNft (t : VerTable) (id : Nat) (category : String)
    (commitment : Option String) : Option VerTable :=
  let t' := t.map (applyNftUpd id category commitment)
  if updConflictB t' id then none else some t'

/-! ## Ownership oracle (src/src/blockchain/nft.ts, third monitor.ts
document: `getTokenUtxos`, `checkNftOwnership`) -/

/-- An NFT payload as delivered by the provider (commitment may be
absent). -/
structure RawNft where
  capability : String
  commitment : Option String
deriving DecidableEq

/-- A token payload as delivered by the provider. -/
structure RawToken where
  category : String
  amount : Option Int
  nft : Option RawNft
deriving DecidableEq

/-- An unspent output as delivered by `provider.getUtxos`. -/
structure RawUtxo where
  txid : String
  vout : Nat
  satoshis : Int
  token : Option RawToken
deriving DecidableEq

/-- An NFT payload after `getTokenUtxos` normalization (`commitment || ''`). -/
structure NftData where
  capability : String
  commitment : String
deriving DecidableEq

/-- A token payload after `getTokenUtxos` normalization (`amount || 0`). -/
structure TokenData where
  category : String
  amount : Int
  nft : Option NftData
deriving DecidableEq

/-- A token-bearing UTXO as returned by `getTokenUtxos`. -/
structure TokenUtxo where
  txid : String
  vout : Nat
  satoshis : Int
  token : Option TokenData
deriving DecidableEq

/-- An owned qualifying asset as returned by `checkNftOwnership`
(`commitment` is `null` for an empty commitment). -/
structure OwnedNft where
  category : String
  commitment : Option String
  txid : String
  vout : Nat
deriving DecidableEq

/-- Embedding of `getTokenUtxos`: keep only outputs carrying a token and
normalize missing token amounts to `0` and missing NFT commitments to the
empty string. -/
def getTokenUtxos (utxos : List RawUtxo) : List TokenUtxo :=
  (utxos.filter (fun u => u.token.isSome)).map (fun u =>
    { txid := u.txid, vout := u.vout, satoshis := u.satoshis,
      token := u.token.map (fun tk =>
        { category := tk.category, amount := tk.amount.getD 0,
          nft := tk.nft.map (fun n =>
            { capability := n.capability,
              commitment := n.commitment.getD "" }) }) })

/-- The loop body of `checkNftOwnership` over the normalized token UTXOs:
an output contributes an entry when its token's category matches one of
the configured categories case-insensitively (`categories.find`, whose
result must also be JS-truthy, i.e. not the empty string) and the token
carries an NFT; the entry's commitment is `null` when the normalized
commitment is empty. -/
def checkNftOwnershipGo (categories : List String) :
    List TokenUtxo → List OwnedNft
  | [] => []
  | u :: us =>
    match u.token with
    | none => checkNftOwnershipGo categories us
    | some tk =>
      match categories.find? (fun c => lowerStr c == lowerStr tk.category) with
      | none => checkNftOwnershipGo categories us
      | some mc =>
        if mc = "" then checkNftOwnershipGo categories us
        else
          match tk.nft with
          | none => checkNftOwnershipGo categories us
          | some n =>
            { category := tk.category,
              commitment := if n.commitment = "" then none else some n.commitment,
              txid := u.txid, vout := u.vout } ::
              checkNftOwnershipGo categories us

/-- Embedding of `checkNftOwnership`: `getTokenUtxos` then the filtering
loop above, preserving provider (UTXO enumeration) order. -/
def checkNftOwnership (utxos : List RawUtxo) (categories : List String) :
    List OwnedNft :=
  checkNftOwnershipGo categories (getTokenUtxos utxos)

/-- The spec's `ownedQualifyingAssets` as amended by claim C9's
counterexample: one entry per unspent output that carries an NFT of one of
the given categories (case-insensitive match); fungible-only token outputs
contribute nothing; the discriminator is the per-item commitment, `null`
when the commitment is empty. -/
def ownedQualifyingAssetsAmended (utxos : List RawUtxo)
    (categories : List String) : List OwnedNft :=
  (getTokenUtxos utxos).filterMap (fun u =>
    match u.token with
    | none => none
    | some tk =>
      match tk.nft with
      | none => none
      | some n =>
        if categories.any (fun c => lowerStr c == lowerStr tk.category) then
          some { category := tk.category,
                 commitment := if n.commitment = "" then none else some n.commitment,
                 txid := u.txid, vout := u.vout }
        else none)

/-! ## Binding resolver and reconciliation loop (part_011 monitor revision)

`checkAddressVerifications` / `checkAllVerifications` in part_011 (and
identically in part_010) branch, for each verification row, on its status
and the owned qualifying assets of its address. The branch structure is
extracted here as a pure decision function, then the loop applies each
decision's Verification Store effect. -/

/-- The four decisions of the Binding Resolver. -/
inductive Decision where
  | activate : OwnedNft → Decision
  | noChange : Decision
  | deactivate : Decision
  | switch : OwnedNft → Decision
deriving DecidableEq

/-- The per-row branch structure of `checkAddressVerifications` (part_011
lines 152-177, identical in `checkAllVerifications` and in part_010):
pending rows activate with the first owned asset when any exists and are
otherwise left alone; active rows with no owned asset are handed to
`handleNftTransferred`; active rows with a non-null category whose current
`(category, commitment)` pair (category compared case-insensitively) no
longer appears in the owned list switch to the first owned asset; all
other rows are left alone. -/
def resolveBinding (status : String) (cat : Option String)
    (comm : Option String) (owned : List OwnedNft) : Decision :=
  if status = "pending" then
    match owned with
    | [] => Decision.noChange
    | nft :: _ => Decision.activate nft
  else
    match owned with
    | [] => Decision.deactivate
    | nft :: _ =>
      match cat with
      | none => Decision.noChange
      | some c =>
        if owned.any (fun n =>
            (lowerStr n.category == lowerStr c) && (n.commitment == comm))
        then Decision.noChange
        else Decision.switch nft

/-- The Verification Store effect of one loop iteration of
`checkAddressVerifications` in part_011, projected to the `verifications`
table. Activation persists `updateVerificationStatus(id, 'active', cat,
comm)` (part_011 line 199); deactivation runs part_011's
`handleNftTransferred`, which deletes the row on every control path (its
final `deleteVerification` sits after the try/catch); a switch persists
`updateVerificationNft`. A write that throws is caught by the per-row
try/catch, leaving the table unchanged. -/
def rowStep (oracle : Int → List OwnedNft) (v : VerRow) (t : VerTable) :
    VerTable :=
  match resolveBinding v.status v.nft_category v.nft_commitment
      (oracle v.group_id) with
  | Decision.activate nft =>
    (updateVerificationStatus t v.id "active" (some nft.category)
      (some nft.commitment)).getD t
  | Decision.noChange => t
  | Decision.deactivate => deleteVerification t v.id
  | Decision.switch nft =>
    (updateVerificationNft t v.id nft.category nft.commitment).getD t

/-- The iteration of `checkAddressVerifications` over its snapshot of
matching rows, threading the table state. -/
def checkAddressLoop (oracle : Int → List OwnedNft) :
    List VerRow → VerTable → VerTable
  | [], t => t
  | v :: vs, t => checkAddressLoop oracle vs (rowStep oracle v t)

/-- Embedding of `checkAddressVerifications` from part_011 (projected to
the `verifications` table): filter the table to the rows whose
`bch_address` is the notified address, then run the per-row step over that
snapshot. `oracle g` is the `checkNftOwnership` result for the address
against group `g`'s configured categories. -/
def checkAddressVerifications (oracle : Int → List OwnedNft) (address : String)
    (t : VerTable) : VerTable :=
  checkAddressLoop oracle (t.filter (fun v => v.bch_address == address)) t

/-! ## Subscription handler and warm-up window (part_011) -/

/-- The monitor's in-process address state: `monitoredAddresses` together
with `addressAddedTimes` (milliseconds). -/
structure MonitorSt where
  entries : List (String × Nat)
deriving DecidableEq

/-- Embedding of `addAddressToMonitor` from part_011: a no-op when the
address is already monitored (so the added-time of the first subscription
is kept), otherwise record the address with the current time. -/
def addAddressToMonitor (ms : MonitorSt) (address : String) (now : Nat) :
    MonitorSt :=
  if ms.entries.any (fun e => e.fst == address) then ms
  else ⟨(address, now) :: ms.entries⟩

/-- Lookup of `addressAddedTimes.get(address)`. -/
def lookupAddedTime (ms : MonitorSt) (address : String) : Option Nat :=
  (ms.entries.find? (fun e => e.fst == address)).map Prod.snd

/-- The warm-up window `SUBSCRIPTION_WARMUP_MS` of part_010/part_011. -/
def subscriptionWarmupMs : Nat := 3000

/-- Embedding of the subscription callback installed by
`setupSubscriptionHandler` in part_011, projected to the `verifications`
table: a notification carries the changed address (or nothing, which is
ignored); notifications for unmonitored addresses are ignored;
notifications within `SUBSCRIPTION_WARMUP_MS` of the address's added time
are ignored; otherwise `checkAddressVerifications` runs for exactly that
address. -/
def handleNotification (ms : MonitorSt) (changedAddress : Option String)
    (now : Nat) (oracle : Int → List OwnedNft) (t : VerTable) : VerTable :=
  match changedAddress with
  | none => t
  | some a =>
    if !ms.entries.any (fun e => e.fst == a) then t
    else
      let addedTime := (lookupAddedTime ms a).getD 0
      if now - addedTime < subscriptionWarmupMs then t
      else checkAddressVerifications oracle a t

/-! ## Apply-step handlers (part_010 and part_011)

Each handler is modelled as a function from its failure environment and
inputs to the resulting table state(s) and the ordered trace of external
(Telegram API) calls it attempts. -/

/-- External effects attempted by the apply-step handlers, in source
order. `persistEv` marks the Verification Store write of the decision. -/
inductive Effect where
  | persistEv : Effect
  | restrictEv : Int → Int → Effect
  | unrestrictEv : Int → Int → Effect
  | banEv : Int → Int → Effect
  | notifyEv : Int → Effect
deriving DecidableEq

/-- The `pending_kicks` table, keyed by `(telegram_user_id, group_id)`. -/
abbrev KickTable := List (Int × Int)

/-- Embedding of `deletePendingKick` from src/src/storage/queries.ts. -/
def deletePendingKick (ks : KickTable) (userId groupId : Int) : KickTable :=
  ks.filter (fun k => !(k == (userId, groupId)))

/-- Embedding of `handleNftTransferred` from part_010 (the
restrict-and-keep-monitoring revision). `memberStatus` is the result of
`getChatMember` (`none` when the call throws, in which case the outer
catch ends the handler with nothing done). Admins and creators have their
row set back to pending without any restriction; everyone else has the row
set to pending, then a restriction attempted (its failure is caught
inline), then a notification attempted (likewise). A throwing status
update is caught by the outer catch. The row is never deleted and the user
is never banned. -/
def handleNftTransferredV10 (memberStatus : Option String) (v : VerRow)
    (t : VerTable) : VerTable × List Effect :=
  match memberStatus with
  | none => (t, [])
  | some st =>
    match updateVerificationStatus t v.id "pending" none none with
    | none => (t, [])
    | some t' =>
      if st = "administrator" ∨ st = "creator" then
        (t', [Effect.persistEv])
      else
        (t', [Effect.persistEv,
              Effect.restrictEv v.group_id v.telegram_user_id,
              Effect.notifyEv v.telegram_user_id])

/-- Embedding of `handleNftTransferred` from part_011 (the kick-and-forget
revision). Admins and creators have their row deleted without a kick; a
thrown `getChatMember` is caught by the outer catch and the final
`deleteVerification` (which sits after the try/catch) still runs; everyone
else is banned for 35 seconds (`banOk` is whether the ban call succeeds -
a throw skips the notification via the outer catch) and then the row is
deleted. On every control path the row is deleted. -/
def handleNftTransferredV11 (memberStatus : Option String) (banOk : Bool)
    (v : VerRow) (t : VerTable) : VerTable × List Effect :=
  match memberStatus with
  | none => (deleteVerification t v.id, [])
  | some st =>
    if st = "administrator" ∨ st = "creator" then
      (deleteVerification t v.id, [])
    else if banOk then
      (deleteVerification t v.id,
       [Effect.banEv v.group_id v.telegram_user_id,
        Effect.notifyEv v.telegram_user_id])
    else
      (deleteVerification t v.id,
       [Effect.banEv v.group_id v.telegram_user_id])

/-- Embedding of `activatePendingVerification` from part_011: persist
`updateVerificationStatus(id, 'active', category, commitment)` first (a
throw is caught by the outer catch, ending the handler); then delete the
pending-kick marker; then attempt the unrestrict (`unrestrictOk` - a throw
is caught by the outer catch, skipping the notification but rolling
nothing back); then attempt the notification (its failure is caught
inline). -/
def activatePendingVerificationV11 (unrestrictOk : Bool) (v : VerRow)
    (nftCategory : String) (nftCommitment : Option String) (t : VerTable)
    (ks : KickTable) : VerTable × KickTable × List Effect :=
  match updateVerificationStatus t v.id "active" (some nftCategory)
      (some nftCommitment) with
  | none => (t, ks, [])
  | some t' =>
    let ks' := deletePendingKick ks v.telegram_user_id v.group_id
    if unrestrictOk then
      (t', ks', [Effect.persistEv,
                 Effect.unrestrictEv v.group_id v.telegram_user_id,
                 Effect.notifyEv v.telegram_user_id])
    else
      (t', ks', [Effect.persistEv,
                 Effect.unrestrictEv v.group_id v.telegram_user_id])

/-! ## Challenges (src/src/storage/queries.ts) and the verification
session (part_004 verify handlers) -/

/-- A row of the `challenges` table. Timestamps are kept as the TEXT they
are stored as: `created_at`/`expires_at` are written as ISO strings
(`Date.prototype.toISOString`), while SQLite's `datetime('now')` renders
`YYYY-MM-DD HH:MM:SS`; the SQL comparisons below are plain TEXT (byte)
comparisons between those strings. -/
structure Challenge where
  id : Nat
  telegram_user_id : Int
  group_id : Option Int
  nonce : String
  bch_address : Option String
  created_at : String
  expires_at : Option String
deriving DecidableEq

/-- The `challenges` table. -/
abbrev ChTable := List Challenge

/-- SQLite TEXT (binary) comparison, `a < b`, on character lists. -/
def strLtB : List Char → List Char → Bool
  | [], [] => false
  | [], _ :: _ => true
  | _ :: _, [] => false
  | a :: as, b :: bs =>
    if a.toNat < b.toNat then true
    else if a.toNat = b.toNat then strLtB as bs
    else false

/-- Whether a challenge row passes the `expires_at IS NULL OR expires_at >
datetime('now')` filter of `getActiveChallenge` (a `NULL` expiry always
passes; otherwise a TEXT comparison against the current-time string). -/
def challengeUnexpiredB (c : Challenge) (nowStr : String) : Bool :=
  match c.expires_at with
  | none => true
  | some e => strLtB nowStr.data e.data

/-- One step of the `ORDER BY created_at DESC LIMIT 1` selection: keep
the candidate with the larger `created_at` TEXT value (the earlier one on
ties). -/
def pickLatestStep (acc : Option Challenge) (c : Challenge) : Option Challenge :=
  match acc with
  | none => some c
  | some m => if strLtB m.created_at.data c.created_at.data then some c else acc

/-- The `ORDER BY created_at DESC LIMIT 1` selection over candidates. -/
def pickLatest (cs : ChTable) : Option Challenge :=
  cs.foldl pickLatestStep none

/-- Embedding of `getActiveChallenge` from src/src/storage/queries.ts:
the newest challenge of the user that has not passed its expiry (per the
TEXT comparison above), if any. -/
def getActiveChallenge (t : ChTable) (telegramUserId : Int) (nowStr : String) :
    Option Challenge :=
  pickLatest (t.filter (fun c =>
    (c.telegram_user_id == telegramUserId) && challengeUnexpiredB c nowStr))

/-- Embedding of `cleanupExpiredChallenges` from
src/src/storage/queries.ts: `DELETE FROM challenges WHERE expires_at <
datetime('now')` (rows with `NULL` expiry are never deleted, since the
comparison is not true of `NULL`). It runs at startup and then hourly
(src/src/index.ts). -/
def cleanupExpiredChallenges (t : ChTable) (nowStr : String) : ChTable :=
  t.filter (fun c =>
    match c.expires_at with
    | none => true
    | some e => !strLtB e.data nowStr.data)

/-- Embedding of `deleteChallenge` from src/src/storage/queries.ts. -/
def deleteChallenge (t : ChTable) (id : Nat) : ChTable :=
  t.filter (fun c => !(c.id == id))

/-- Modelled from the spec: the two-argument `getVerificationByNft(category,
commitment)` called by the part_004 verify handlers (lines 701 and 879);
the queries revision defining it is not under src/ (the src/ revision
takes a third `groupId` argument the handlers do not pass). Per the spec's
uniqueness check it looks up a Binding that "already references the target
(category, discriminator)", handling a `null` discriminator with an `IS
NULL` comparison as the src/ revision does. -/
def getVerificationByNft2 (t : VerTable) (category : String)
    (commitment : Option String) : Option VerRow :=
  t.find? (fun r =>
    (r.nft_category == some category) && (r.nft_commitment == commitment))

/-- The combined persisted state touched by the verification session. -/
structure DbState where
  verifications : VerTable
  challenges : ChTable
  pendingKicks : KickTable
deriving DecidableEq

/-- Outcomes reported to the user by the manual-verification address step. -/
inductive AddrOutcome where
  | invalidAddress : AddrOutcome
  | noNft : AddrOutcome
  | uniquenessConflict : AddrOutcome
  | signPrompt : AddrOutcome
deriving DecidableEq

/-- Embedding of the `state.step === 'address'` branch of the part_004
`message:text` handler (lines 848-913): an invalid address is reported and
nothing changes; with no owned qualifying asset the user is told to retry
and nothing changes; otherwise the first owned asset is looked up via
`getVerificationByNft` and, when it is already bound to a different user,
the uniqueness conflict is reported and neither a Binding nor a Challenge
is created; otherwise a challenge row is inserted (`createChallenge`) and
the user is prompted to sign. `addrValid` is the `isValidBchAddress`
result (external cash-address decoding), `owned` the oracle result for the
address, `nonce`/`createdIso`/`expiresIso` the random nonce and timestamp
strings `createChallenge` computes. Returns the new state, the outcome,
and the created challenge if any. -/
def addressStep (db : DbState) (userId : Int) (groupId : Int)
    (addrValid : Bool) (address : String) (owned : List OwnedNft)
    (nonce : String) (createdIso : String) (expiresIso : String) :
    DbState × AddrOutcome × Option Challenge :=
  if !addrValid then (db, AddrOutcome.invalidAddress, none)
  else
    match owned with
    | [] => (db, AddrOutcome.noNft, none)
    | nft :: _ =>
      let proceed : DbState × AddrOutcome × Option Challenge :=
        let ch : Challenge :=
          { id := (db.challenges.map Challenge.id).foldr max 0 + 1,
            telegram_user_id := userId, group_id := some groupId,
            nonce := nonce, bch_address := some address,
            created_at := createdIso, expires_at := some expiresIso }
        ({ db with challenges := db.challenges ++ [ch] },
         AddrOutcome.signPrompt, some ch)
      match getVerificationByNft2 db.verifications nft.category
          nft.commitment with
      | some existing =>
        if existing.telegram_user_id ≠ userId then
          (db, AddrOutcome.uniquenessConflict, none)
        else proceed
      | none => proceed

/-- Outcomes of the signature step of the manual flow. -/
inductive SigOutcome where
  | sigFail : SigOutcome
  | nftGone : SigOutcome
  | insertThrew : SigOutcome
  | success : SigOutcome
deriving DecidableEq

/-- Embedding of the `state.step === 'signature'` branch of the part_004
`message:text` handler (lines 915-971): the stored challenge message is
verified (`sigValid` is the `verifySignedMessage` result); on failure the
user may retry and nothing changes; then the owned assets are re-fetched
and if none remain the challenge is deleted and the session cleared;
otherwise `addVerification` inserts the Binding (an uncaught
unique-constraint throw leaves the state unchanged), the challenge row is
deleted, the pending-kick marker removed, and the user unrestricted.
Note: no field of `challenge` - in particular not `expires_at` - is ever
consulted; the handler never reads the clock. -/
def signatureStep (db : DbState) (userId : Int) (username : Option String)
    (groupId : Int) (challenge : Challenge) (address : String)
    (sigValid : Bool) (owned : List OwnedNft) : DbState × SigOutcome :=
  if !sigValid then (db, SigOutcome.sigFail)
  else
    match owned with
    | [] =>
      ({ db with challenges := deleteChallenge db.challenges challenge.id },
       SigOutcome.nftGone)
    | nft :: _ =>
      match addVerification db.verifications userId username groupId
          nft.category nft.commitment address with
      | none => (db, SigOutcome.insertThrew)
      | some vt =>
        ({ verifications := vt,
           challenges := deleteChallenge db.challenges challenge.id,
           pendingKicks := deletePendingKick db.pendingKicks userId groupId },
         SigOutcome.success)

/-! ## Predicates and fixtures used by the claims -/

/-- Whether two Bindings witness a violation of the spec's system-wide
uniqueness invariant: both `active`, same category, and the same non-null
discriminator - with no condition on the space/group. -/
def sysConflictB (a b : VerRow) : Bool :=
  (a.status == "active") && (b.status == "active") &&
    (match a.nft_category, b.nft_category with
     | some x, some y => x == y
     | _, _ => false) &&
    (match a.nft_commitment, b.nft_commitment with
     | some x, some y => x == y
     | _, _ => false)

/-- The spec's system-wide uniqueness invariant over a `verifications`
table: no two distinct active rows share the same (category, non-null
discriminator) pair, across all groups. -/
def sysActiveUniqueB : VerTable → Bool
  | [] => true
  | r :: rs => rs.all (fun x => !sysConflictB r x) && sysActiveUniqueB rs

/-- A chain-state oracle under which every queried group sees the single
owned asset (category `c0`, discriminator `d0`) at the checked address. -/
def oracleCD : Int → List OwnedNft :=
  fun _ => [⟨"c0", some "d0", "tx", 0⟩]

/-- A chain-state oracle under which no address owns any qualifying
asset. -/
def emptyOracle : Int → List OwnedNft :=
  fun _ => []

/-! ## Theorems -/

/-! ### Claim C2: the src/ verifier accepts any format-valid signature -/

/-- Claim C2: for every message, signature and address where the signature
decodes to exactly 65 bytes whose first byte (the recovery flag) lies in
27..34, `verifySignedMessage` of src/src/blockchain/verify.ts returns
`true`, whatever the message, the address, and the cryptographic validity
of the signature. The bound on the message byte length keeps
`varintEncode` from throwing; it always holds for the UTF-8 encoding of a
JavaScript string (V8 caps string length well below 2^32 bytes). -/
theorem verifySignedMessage_accepts_any_format_valid_signature
    (msgBytes sigBytes : List Nat) (addr : String)
    (h65 : sigBytes.length = 65) (h27 : 27 ≤ sigBytes.headD 0)
    (h34 : sigBytes.headD 0 ≤ 34) (hlen : msgBytes.length ≤ 4294967295) :
    verifySignedMessage msgBytes sigBytes addr = true := by
  obtain ⟨v, hv⟩ : ∃ v, varintEncode msgBytes.length = some v := by
    unfold varintEncode
    split_ifs <;> exact ⟨_, rfl⟩
  unfold verifySignedMessage createMessagePreimage
  rw [if_neg (by omega),
    if_neg (by simp only [Bool.or_eq_true, decide_eq_true_eq, not_or]; omega),
    hv]
  rfl

/-- Witness for claim C2 at a concrete 65-byte signature with flag 27. -/
theorem verifySignedMessage_accepts_any_format_valid_signature_witness :
    verifySignedMessage [1, 2, 3] (List.replicate 65 27) "bitcoincash:qq" =
      true :=
  verifySignedMessage_accepts_any_format_valid_signature [1, 2, 3]
    (List.replicate 65 27) "bitcoincash:qq" (by decide) (by decide)
    (by decide) (by decide)

/-! ### Claim C4: the Binding Resolver decision table -/

/-- Claim C4: the per-row reconciliation logic implements the spec's
decision table with its stated precedence. Row 1: pending with a non-empty
owned list activates with the first owned asset (oracle order). Row 2:
pending with an empty list is no change. Row 3: active with an empty list
deactivates. Row 4: active whose owned list does not contain the currently
referenced (category, discriminator) - category compared
case-insensitively, as the source does - switches to the first owned
asset. Row 5: active with the current asset still present is no change. -/
theorem resolveBinding_implements_decision_table :
    (∀ cat comm nft rest,
      resolveBinding "pending" cat comm (nft :: rest) = Decision.activate nft)
  ∧ (∀ cat comm, resolveBinding "pending" cat comm [] = Decision.noChange)
  ∧ (∀ cat comm, resolveBinding "active" cat comm [] = Decision.deactivate)
  ∧ (∀ c comm nft rest,
      ((nft :: rest).any (fun n =>
        (lowerStr n.category == lowerStr c) && (n.commitment == comm))) = false →
      resolveBinding "active" (some c) comm (nft :: rest) = Decision.switch nft)
  ∧ (∀ c comm nft rest,
      ((nft :: rest).any (fun n =>
        (lowerStr n.category == lowerStr c) && (n.commitment == comm))) = true →
      resolveBinding "active" (some c) comm (nft :: rest) = Decision.noChange) := by
  refine ⟨?_, ?_, ?_, ?_, ?_⟩ <;> intros <;>
    simp [resolveBinding, *]

/-- Witness for claim C4: the switch row at a concrete active binding
whose original NFT is gone but whose address holds another qualifying
one. -/
theorem resolveBinding_implements_decision_table_witness :
    resolveBinding "active" (some "c0") (some "d0")
      [⟨"c1", some "d1", "tx", 0⟩] =
      Decision.switch ⟨"c1", some "d1", "tx", 0⟩ :=
  resolveBinding_implements_decision_table.2.2.2.1 "c0" (some "d0")
    ⟨"c1", some "d1", "tx", 0⟩ [] (by decide)

/-! ### Claim C9: the ownership oracle returns NFT outputs only -/

/-- Counterexample to claim C9: an unspent output carrying a fungible-only
token of a listed category (`token` present, `token.nft` absent)
contributes no entry at all to `checkNftOwnership` - the claim says it
yields one entry with a null discriminator. -/
theorem checkNftOwnership_drops_fungible_counterexample :
    checkNftOwnership [⟨"tx0", 0, 1000, some ⟨"aa", some 5, none⟩⟩] ["aa"] = []
  ∧ (⟨"tx0", 0, 1000, some ⟨"aa", some 5, none⟩⟩ : RawUtxo).token.map
      RawToken.category = some "aa"
  ∧ "aa" ∈ ["aa"] := by decide

/-- Claim C9 as amended: over any UTXO set and any category list with no
empty category identifier, `checkNftOwnership` returns one entry per
unspent output carrying an NFT of one of the given categories
(case-insensitive), with the per-item commitment as discriminator (null
when the commitment is empty); fungible-only token outputs are excluded. -/
theorem checkNftOwnership_returns_nft_outputs
    (utxos : List RawUtxo) (categories : List String)
    (hcat : ∀ c ∈ categories, c ≠ "") :
    checkNftOwnership utxos categories =
      ownedQualifyingAssetsAmended utxos categories := by
  unfold checkNftOwnership ownedQualifyingAssetsAmended
  generalize getTokenUtxos utxos = l
  induction l with
  | nil => rfl
  | cons u us ih =>
    rw [List.filterMap_cons]
    cases htk : u.token with
    | none =>
      simp only [checkNftOwnershipGo, htk]
      exact ih
    | some tk =>
      cases hfind : categories.find? (fun c => lowerStr c == lowerStr tk.category) with
      | none =>
        have hany : categories.any (fun c => lowerStr c == lowerStr tk.category) = false := by
          rw [List.any_eq_false]
          intro c hc
          have := List.find?_eq_none.mp hfind c hc
          simpa using this
        cases hn : tk.nft with
        | none =>
          simp only [checkNftOwnershipGo, htk, hfind, hn]
          exact ih
        | some n =>
          simp only [checkNftOwnershipGo, htk, hfind, hn, hany,
            Bool.false_eq_true, if_false]
          exact ih
      | some mc =>
        have hmc : mc ≠ "" := hcat mc (List.mem_of_find?_eq_some hfind)
        have hp := List.find?_some hfind
        have hany : categories.any (fun c => lowerStr c == lowerStr tk.category) = true := by
          rw [List.any_eq_true]
          exact ⟨mc, List.mem_of_find?_eq_some hfind, hp⟩
        cases hn : tk.nft with
        | none =>
          simp only [checkNftOwnershipGo, htk, hfind, hn]
          rw [if_neg hmc]
          exact ih
        | some n =>
          simp only [checkNftOwnershipGo, htk, hfind, hn, hany, if_true]
          rw [if_neg hmc, ih]

/-- Witness for amended claim C9 at a concrete NFT-bearing UTXO set. -/
theorem checkNftOwnership_returns_nft_outputs_witness :
    checkNftOwnership
      [⟨"tx0", 0, 1000, some ⟨"aa", some 5, none⟩⟩,
       ⟨"tx1", 1, 800, some ⟨"AA", some 0, some ⟨"none", some "01"⟩⟩⟩] ["aa"] =
      ownedQualifyingAssetsAmended
        [⟨"tx0", 0, 1000, some ⟨"aa", some 5, none⟩⟩,
         ⟨"tx1", 1, 800, some ⟨"AA", some 0, some ⟨"none", some "01"⟩⟩⟩] ["aa"] :=
  checkNftOwnership_returns_nft_outputs _ _ (by decide)

/-! ### Claim C1: uniqueness of (category, discriminator) bindings -/

/-- Unique-index collision is symmetric. -/
theorem rowConflictB_symm (a b : VerRow) : rowConflictB a b = rowConflictB b a := by
  unfold rowConflictB
  cases a.nft_category <;> cases b.nft_category <;>
    cases a.nft_commitment <;> cases b.nft_commitment <;>
    simp only [Bool.and_false, Bool.false_and, Bool.and_true, Bool.true_and] <;>
    first
    | rfl
    | (rw [Bool.eq_iff_iff]
       simp only [Bool.and_eq_true, beq_iff_eq]
       constructor
       · rintro ⟨⟨h1, h2⟩, h3⟩
         exact ⟨⟨h1.symm, h2.symm⟩, h3.symm⟩
       · rintro ⟨⟨h1, h2⟩, h3⟩
         exact ⟨⟨h1.symm, h2.symm⟩, h3.symm⟩)

/-- In a table with pairwise distinct ids, rows are determined by their
id. -/
theorem idsNodupB_inj (t : VerTable) (h : idsNodupB t = true) :
    ∀ x ∈ t, ∀ y ∈ t, x.id = y.id → x = y := by
  induction t with
  | nil => intro x hx; simp at hx
  | cons r rs ih =>
    rw [idsNodupB, Bool.and_eq_true, List.all_eq_true] at h
    obtain ⟨hall, hrs⟩ := h
    intro x hx y hy hxy
    rcases List.mem_cons.mp hx with rfl | hx' <;>
      rcases List.mem_cons.mp hy with rfl | hy'
    · rfl
    · exact absurd hxy.symm (by simpa using hall y hy')
    · exact absurd hxy (by simpa using hall x hx')
    · exact ih hrs x hx' y hy' hxy

/-- The unique-index invariant, read as a statement about pairs of rows
with distinct ids. -/
theorem perGroupUniqueB_pairs (t : VerTable) (h : perGroupUniqueB t = true) :
    ∀ x ∈ t, ∀ y ∈ t, x.id ≠ y.id → rowConflictB x y = false := by
  induction t with
  | nil => intro x hx; simp at hx
  | cons r rs ih =>
    rw [perGroupUniqueB, Bool.and_eq_true, List.all_eq_true] at h
    obtain ⟨hall, hrs⟩ := h
    intro x hx y hy hxy
    rcases List.mem_cons.mp hx with rfl | hx' <;>
      rcases List.mem_cons.mp hy with rfl | hy'
    · exact absurd rfl hxy
    · simpa using hall y hy'
    · rw [rowConflictB_symm]
      simpa using hall x hx'
    · exact ih hrs x hx' y hy' hxy

/-- Converse: pairwise non-collision of id-distinct rows gives the
invariant, provided ids are pairwise distinct. -/
theorem perGroupUniqueB_of_pairs (t : VerTable) (hnd : idsNodupB t = true)
    (h : ∀ x ∈ t, ∀ y ∈ t, x.id ≠ y.id → rowConflictB x y = false) :
    perGroupUniqueB t = true := by
  induction t with
  | nil => rfl
  | cons r rs ih =>
    rw [idsNodupB, Bool.and_eq_true, List.all_eq_true] at hnd
    obtain ⟨hall, hrs⟩ := hnd
    rw [perGroupUniqueB, Bool.and_eq_true, List.all_eq_true]
    constructor
    · intro x hx
      have hne : r.id ≠ x.id := fun he => by simpa [he] using hall x hx
      simpa using h r (List.mem_cons_self r rs) x (List.mem_cons_of_mem r hx) hne
    · exact ih hrs (fun x hx y hy hxy =>
        h x (List.mem_cons_of_mem r hx) y (List.mem_cons_of_mem r hy) hxy)

/-- A successful UPDATE decomposes into the column rewrite and a passed
index check (status update flavor). -/
theorem updateVerificationStatus_some {t : VerTable} {id : Nat} {s : String}
    {nc : Option String} {ncm : Option (Option String)} {t' : VerTable}
    (h : updateVerificationStatus t id s nc ncm = some t') :
    t' = t.map (applyStatusUpd id s nc ncm) ∧
      updConflictB (t.map (applyStatusUpd id s nc ncm)) id = false := by
  unfold updateVerificationStatus at h
  cases hcond : updConflictB (t.map (applyStatusUpd id s nc ncm)) id <;>
    simp [hcond] at h
  exact ⟨h.symm, rfl⟩

/-- A successful UPDATE decomposes into the column rewrite and a passed
index check (asset-reference update flavor). -/
theorem updateVerificationNft_some {t : VerTable} {id : Nat} {cat : String}
    {comm : Option String} {t' : VerTable}
    (h : updateVerificationNft t id cat comm = some t') :
    t' = t.map (applyNftUpd id cat comm) ∧
      updConflictB (t.map (applyNftUpd id cat comm)) id = false := by
  unfold updateVerificationNft at h
  cases hcond : updConflictB (t.map (applyNftUpd id cat comm)) id <;>
    simp [hcond] at h
  exact ⟨h.symm, rfl⟩

/-- A passed UPDATE index check means the updated row collides with no
distinct-id row. -/
theorem updConflictB_false {t' : VerTable} {id : Nat}
    (h : updConflictB t' id = false) :
    ∀ a ∈ t', a.id = id → ∀ b ∈ t', b.id ≠ id → rowConflictB a b = false := by
  unfold updConflictB at h
  rw [List.any_eq_false] at h
  intro a ha haid b hb hbid
  have h1 := h a ha
  rw [Bool.and_eq_true, not_and] at h1
  have h2 := h1 (by simpa using haid)
  rw [List.any_eq_true] at h2
  push_neg at h2
  have h3 := h2 b hb
  by_contra hc
  rw [Bool.not_eq_false] at hc
  exact h3 (by simp [hc, hbid])

/-- `applyStatusUpd` only rewrites status and asset columns. -/
theorem applyStatusUpd_id (id : Nat) (s : String) (nc : Option String)
    (ncm : Option (Option String)) (r : VerRow) :
    (applyStatusUpd id s nc ncm r).id = r.id := by
  unfold applyStatusUpd; split_ifs <;> rfl

/-- `applyStatusUpd` leaves rows with a different id untouched. -/
theorem applyStatusUpd_fix (id : Nat) (s : String) (nc : Option String)
    (ncm : Option (Option String)) (r : VerRow) (h : r.id ≠ id) :
    applyStatusUpd id s nc ncm r = r := by
  unfold applyStatusUpd; rw [if_neg h]

/-- `applyNftUpd` preserves the id column. -/
theorem applyNftUpd_id (id : Nat) (cat : String) (comm : Option String)
    (r : VerRow) : (applyNftUpd id cat comm r).id = r.id := by
  unfold applyNftUpd; split_ifs <;> rfl

/-- `applyNftUpd` leaves rows with a different id untouched. -/
theorem applyNftUpd_fix (id : Nat) (cat : String) (comm : Option String)
    (r : VerRow) (h : r.id ≠ id) : applyNftUpd id cat comm r = r := by
  unfold applyNftUpd; rw [if_neg h]

/-- An id-preserving row map preserves distinctness of ids. -/
theorem idsNodupB_map (t : VerTable) (f : VerRow → VerRow)
    (hid : ∀ r, (f r).id = r.id) : idsNodupB (t.map f) = idsNodupB t := by
  induction t with
  | nil => rfl
  | cons r rs ih =>
    rw [List.map_cons, idsNodupB, idsNodupB, ih]
    congr 1
    rw [List.all_map]
    simp only [Function.comp_def, hid]

/-- A checked single-row UPDATE preserves the unique-index invariant. -/
theorem upd_preserves_unique (t : VerTable) (id : Nat) (f : VerRow → VerRow)
    (hid : ∀ r, (f r).id = r.id) (hfix : ∀ r, r.id ≠ id → f r = r)
    (huniq : perGroupUniqueB t = true) (hnd : idsNodupB t = true)
    (hchk : updConflictB (t.map f) id = false) :
    perGroupUniqueB (t.map f) = true := by
  apply perGroupUniqueB_of_pairs
  · rw [idsNodupB_map t f hid]; exact hnd
  · intro x hx y hy hne
    obtain ⟨x0, hx0, rfl⟩ := List.mem_map.mp hx
    obtain ⟨y0, hy0, rfl⟩ := List.mem_map.mp hy
    rw [hid, hid] at hne
    by_cases hxid : x0.id = id
    · exact updConflictB_false hchk (f x0) (List.mem_map_of_mem f hx0)
        (by rw [hid]; exact hxid) (f y0) (List.mem_map_of_mem f hy0)
        (by rw [hid]; omega)
    · by_cases hyid : y0.id = id
      · rw [rowConflictB_symm]
        exact updConflictB_false hchk (f y0) (List.mem_map_of_mem f hy0)
          (by rw [hid]; exact hyid) (f x0) (List.mem_map_of_mem f hx0)
          (by rw [hid]; exact hxid)
      · rw [hfix x0 hxid, hfix y0 hyid]
        exact perGroupUniqueB_pairs t huniq x0 hx0 y0 hy0 hne

/-- Appending a row that collides with nothing preserves the invariant. -/
theorem perGroupUniqueB_append (t : VerTable) (row : VerRow)
    (huniq : perGroupUniqueB t = true)
    (hno : ∀ r ∈ t, rowConflictB row r = false) :
    perGroupUniqueB (t ++ [row]) = true := by
  induction t with
  | nil => simp [perGroupUniqueB]
  | cons r rs ih =>
    rw [perGroupUniqueB, Bool.and_eq_true, List.all_eq_true] at huniq
    obtain ⟨hall, hrs⟩ := huniq
    rw [List.cons_append, perGroupUniqueB, Bool.and_eq_true, List.all_eq_true]
    constructor
    · intro x hx
      rcases List.mem_append.mp hx with hx' | hx'
      · simpa using hall x hx'
      · have : x = row := by simpa using hx'
        subst this
        rw [rowConflictB_symm]
        simpa using hno r (List.mem_cons_self r rs)
    · exact ih hrs (fun x hx => hno x (List.mem_cons_of_mem r hx))

/-- Counterexample to claim C1: starting from an empty `verifications`
table, `addVerification` accepts the same (category `c0`, discriminator
`d0`) pair for user 1 in group 1 and then again for user 2 in group 2 -
the schema's `UNIQUE(nft_category, nft_commitment, group_id)` index is
scoped per group, so both inserts succeed and the resulting persisted
state holds two active Bindings sharing (c0, d0) across groups, violating
the claimed system-wide invariant. -/
theorem addVerification_cross_group_duplicate_counterexample :
    (Option.map sysActiveUniqueB
      ((addVerification [] 1 none 1 "c0" (some "d0") "addr1").bind
        (fun t => addVerification t 2 none 2 "c0" (some "d0") "addr2"))) =
      some false := by decide

/-- Claim C1 as amended: the uniqueness of asset references is per
(category, discriminator, group) - not system-wide - and holds for rows of
every status: whenever a write through `addVerification`,
`updateVerificationNft` or `updateVerificationStatus` succeeds on a table
satisfying the unique-index invariant (with distinct row ids), the
resulting table satisfies it again; a violating write throws and leaves
the table unchanged. -/
theorem verifications_unique_index_preserved (t : VerTable)
    (huniq : perGroupUniqueB t = true) (hnd : idsNodupB t = true) :
    (∀ uid un gid cat comm addr t',
      addVerification t uid un gid cat comm addr = some t' →
        perGroupUniqueB t' = true)
  ∧ (∀ id cat comm t',
      updateVerificationNft t id cat comm = some t' →
        perGroupUniqueB t' = true)
  ∧ (∀ id s nc ncm t',
      updateVerificationStatus t id s nc ncm = some t' →
        perGroupUniqueB t' = true) := by
  refine ⟨?_, ?_, ?_⟩
  · intro uid un gid cat comm addr t' h
    unfold addVerification at h
    cases hchk : t.any (fun r => rowConflictB
        { id := nextVerId t, telegram_user_id := uid, telegram_username := un,
          group_id := gid, nft_category := some cat, nft_commitment := comm,
          bch_address := addr, status := "active" } r) <;>
      simp [hchk] at h
    subst h
    apply perGroupUniqueB_append t _ huniq
    intro r hr
    rw [List.any_eq_false] at hchk
    have := hchk r hr
    simpa using this
  · intro id cat comm t' h
    obtain ⟨rfl, hchk⟩ := updateVerificationNft_some h
    exact upd_preserves_unique t id _ (applyNftUpd_id id cat comm)
      (applyNftUpd_fix id cat comm) huniq hnd hchk
  · intro id s nc ncm t' h
    obtain ⟨rfl, hchk⟩ := updateVerificationStatus_some h
    exact upd_preserves_unique t id _ (applyStatusUpd_id id s nc ncm)
      (applyStatusUpd_fix id s nc ncm) huniq hnd hchk

/-- Witness for amended claim C1: a concrete insert into a one-row table
keeps the invariant. -/
theorem verifications_unique_index_preserved_witness :
    perGroupUniqueB
      [⟨1, 7, none, 1, some "c0", some "d0", "addr1", "active"⟩,
       ⟨2, 2, none, 2, some "c0", some "d0", "addr2", "active"⟩] = true :=
  (verifications_unique_index_preserved
      [⟨1, 7, none, 1, some "c0", some "d0", "addr1", "active"⟩]
      (by decide) (by decide)).1 2 none 2 "c0" (some "d0") "addr2" _ (by decide)

/-! ### Claim C3: Deactivate restricts but never removes -/

/-- `rowConflictB` only reads the three indexed columns. -/
theorem rowConflictB_congr (a a' b b' : VerRow)
    (hag : a.group_id = a'.group_id) (hac : a.nft_category = a'.nft_category)
    (ham : a.nft_commitment = a'.nft_commitment)
    (hbg : b.group_id = b'.group_id) (hbc : b.nft_category = b'.nft_category)
    (hbm : b.nft_commitment = b'.nft_commitment) :
    rowConflictB a b = rowConflictB a' b' := by
  unfold rowConflictB
  rw [hag, hac, ham, hbg, hbc, hbm]

/-- A status-only rewrite leaves the indexed columns unchanged. -/
theorem applyStatusUpd_statusOnly_fields (id : Nat) (s : String) (r : VerRow) :
    (applyStatusUpd id s none none r).group_id = r.group_id ∧
    (applyStatusUpd id s none none r).nft_category = r.nft_category ∧
    (applyStatusUpd id s none none r).nft_commitment = r.nft_commitment := by
  unfold applyStatusUpd
  split_ifs <;> exact ⟨rfl, rfl, rfl⟩

/-- On a table satisfying the unique-index invariant, a status-only UPDATE
never hits the index and therefore always succeeds. -/
theorem statusOnly_update_succeeds (t : VerTable) (id : Nat) (s : String)
    (huniq : perGroupUniqueB t = true) :
    updateVerificationStatus t id s none none =
      some (t.map (applyStatusUpd id s none none)) := by
  unfold updateVerificationStatus
  cases hchk : updConflictB (t.map (applyStatusUpd id s none none)) id
  · simp [hchk]
  · exfalso
    unfold updConflictB at hchk
    rw [List.any_eq_true] at hchk
    obtain ⟨a, ha, hA⟩ := hchk
    rw [Bool.and_eq_true] at hA
    obtain ⟨haid, hAany⟩ := hA
    rw [List.any_eq_true] at hAany
    obtain ⟨b, hb, hB⟩ := hAany
    rw [Bool.and_eq_true] at hB
    obtain ⟨hbid, hconf⟩ := hB
    obtain ⟨a0, ha0, rfl⟩ := List.mem_map.mp ha
    obtain ⟨b0, hb0, rfl⟩ := List.mem_map.mp hb
    obtain ⟨hg1, hc1, hm1⟩ := applyStatusUpd_statusOnly_fields id s a0
    obtain ⟨hg2, hc2, hm2⟩ := applyStatusUpd_statusOnly_fields id s b0
    rw [rowConflictB_congr _ a0 _ b0 hg1 hc1 hm1 hg2 hc2 hm2] at hconf
    have haid' : a0.id = id := by
      have := haid
      rw [applyStatusUpd_id] at this
      simpa using this
    have hbid' : b0.id ≠ id := by
      have := hbid
      rw [applyStatusUpd_id] at this
      simpa using this
    have := perGroupUniqueB_pairs t huniq a0 ha0 b0 hb0 (by omega)
    rw [this] at hconf
    cases hconf

/-- Counterexample to claim C3: in the part_011 revision (and likewise in
src/src/blockchain/monitor.ts), the Deactivate path `handleNftTransferred`
does remove the user from the space (a 35-second ban, i.e. a kick) and
deletes the Binding's row outright instead of keeping it as pending: for a
concrete non-admin active Binding the resulting table is empty and the
trace contains the ban. -/
theorem deactivate_kicks_and_deletes_counterexample :
    handleNftTransferredV11 (some "member") true
      ⟨1, 7, none, 10, some "c0", some "d0", "addr", "active"⟩
      [⟨1, 7, none, 10, some "c0", some "d0", "addr", "active"⟩] =
      ([], [Effect.banEv 10 7, Effect.notifyEv 7]) := by decide

/-- Claim C3 as amended: only the part_010 monitor revision implements the
restrict-and-keep-monitoring policy: its `handleNftTransferred`, for a
non-admin member, never bans (removes) the user, restricts them, deletes
no row, and keeps the Binding's row with status set back to pending (so
the address keeps being monitored); the part_011 and
src/src/blockchain/monitor.ts revisions instead kick the user and delete
the Binding. -/
theorem deactivate_restricts_and_keeps_binding (st : String) (v : VerRow)
    (t : VerTable) (huniq : perGroupUniqueB t = true)
    (hadmin : ¬(st = "administrator" ∨ st = "creator")) :
    (∀ g u, Effect.banEv g u ∉ (handleNftTransferredV10 (some st) v t).2)
  ∧ Effect.restrictEv v.group_id v.telegram_user_id ∈
      (handleNftTransferredV10 (some st) v t).2
  ∧ (handleNftTransferredV10 (some st) v t).1.length = t.length
  ∧ (∀ r ∈ (handleNftTransferredV10 (some st) v t).1,
      r.id = v.id → r.status = "pending")
  ∧ (∀ r ∈ (handleNftTransferredV10 (some st) v t).1, r.id ≠ v.id → r ∈ t) := by
  unfold handleNftTransferredV10
  rw [statusOnly_update_succeeds t v.id "pending" huniq]
  simp only [if_neg hadmin]
  refine ⟨?_, ?_, ?_, ?_, ?_⟩
  · intro g u
    simp
  · simp
  · exact List.length_map t _
  · intro r hr hid
    obtain ⟨r0, hr0, rfl⟩ := List.mem_map.mp hr
    by_cases h0 : r0.id = v.id
    · unfold applyStatusUpd
      rw [if_pos h0]
    · rw [applyStatusUpd_fix _ _ _ _ _ h0] at hid ⊢
      exact absurd hid h0
  · intro r hr hid
    obtain ⟨r0, hr0, rfl⟩ := List.mem_map.mp hr
    by_cases h0 : r0.id = v.id
    · rw [applyStatusUpd_id] at hid
      exact absurd h0 hid
    · rw [applyStatusUpd_fix _ _ _ _ _ h0]
      exact hr0

/-- Witness for amended claim C3 at a concrete active Binding: the row
survives (same table length) after the part_010 Deactivate. -/
theorem deactivate_restricts_and_keeps_binding_witness :
    (handleNftTransferredV10 (some "member")
      ⟨1, 7, none, 10, some "c0", some "d0", "addr", "active"⟩
      [⟨1, 7, none, 10, some "c0", some "d0", "addr", "active"⟩]).1.length =
      [(⟨1, 7, none, 10, some "c0", some "d0", "addr", "active"⟩ : VerRow)].length :=
  (deactivate_restricts_and_keeps_binding "member"
    ⟨1, 7, none, 10, some "c0", some "d0", "addr", "active"⟩
    [⟨1, 7, none, 10, some "c0", some "d0", "addr", "active"⟩]
    (by decide) (by decide)).2.2.1

/-! ### Claim C8: persist before controller and notify; no rollback -/

/-- Claim C8: on the part_011 Activate apply step and the part_010
Deactivate apply step, the Verification Store write comes first in the
effect trace - before the membership-controller mutation (unrestrict
resp. restrict) and before the user notification - and the resulting
table equals the persisted one for every controller/notification failure
mode (the mutation is never rolled back: the conclusion holds for both
values of `unrestrictOk`, and the part_010 restrict/notify failures are
caught inline without touching the store). -/
theorem apply_step_persists_first (v : VerRow) :
    (∀ (unrestrictOk : Bool) cat comm t ks t',
      updateVerificationStatus t v.id "active" (some cat) (some comm) =
        some t' →
      (activatePendingVerificationV11 unrestrictOk v cat comm t ks).1 = t' ∧
      (activatePendingVerificationV11 unrestrictOk v cat comm t ks).2.2.head? =
        some Effect.persistEv)
  ∧ (∀ (st : String) t t',
      updateVerificationStatus t v.id "pending" none none = some t' →
      (handleNftTransferredV10 (some st) v t).1 = t' ∧
      (handleNftTransferredV10 (some st) v t).2.head? = some Effect.persistEv) := by
  constructor
  · intro uOk cat comm t ks t' h
    unfold activatePendingVerificationV11
    rw [h]
    cases uOk <;> exact ⟨rfl, rfl⟩
  · intro st t t' h
    unfold handleNftTransferredV10
    rw [h]
    dsimp only
    split_ifs <;> exact ⟨rfl, rfl⟩

/-- Witness for claim C8 at a concrete pending Binding activated against a
one-row table, with a failing unrestrict call. -/
theorem apply_step_persists_first_witness :
    (activatePendingVerificationV11 false
      ⟨1, 7, none, 10, none, none, "addr", "pending"⟩ "c0" none
      [⟨1, 7, none, 10, none, none, "addr", "pending"⟩] []).1 =
      [⟨1, 7, none, 10, some "c0", none, "addr", "active"⟩] :=
  ((apply_step_persists_first
      ⟨1, 7, none, 10, none, none, "addr", "pending"⟩).1 false "c0" none
    [⟨1, 7, none, 10, none, none, "addr", "pending"⟩] []
    [⟨1, 7, none, 10, some "c0", none, "addr", "active"⟩] (by decide)).1

/-! ### Claim C5: the uniqueness check and its coverage -/

/-- Counterexample to claim C5: the reconciliation loop's Activate
performs no uniqueness check. With user 7 holding an active Binding on
(c0, d0) in group 1, a notification-triggered re-check of user 2's pending
Binding in group 2 - whose address now owns exactly that (c0, d0) asset -
activates it onto (c0, d0) rather than rejecting: the claimed Reject never
happens (the per-group database index does not fire across groups). -/
theorem reconciliation_activate_skips_uniqueness_counterexample :
    checkAddressVerifications oracleCD "addrA"
      [⟨1, 7, none, 1, some "c0", some "d0", "addrB", "active"⟩,
       ⟨2, 2, none, 2, none, none, "addrA", "pending"⟩] =
      [⟨1, 7, none, 1, some "c0", some "d0", "addrB", "active"⟩,
       ⟨2, 2, none, 2, some "c0", some "d0", "addrA", "active"⟩] := by decide

/-- Claim C5 as amended: the uniqueness check lives only in the
Verification Session before the Challenge is issued: in the part_004
address step, when the first owned asset's (category, discriminator) is
already referenced by a Binding of a different user, the session reports
the uniqueness conflict and creates neither a Binding nor a Challenge
(the state is returned unchanged). The reconciliation loop's Activate and
Switch, and the post-signature commit, perform no such check beyond the
per-group database constraint. -/
theorem session_address_step_rejects_claimed_asset
    (db : DbState) (userId groupId : Int) (address : String) (nft : OwnedNft)
    (rest : List OwnedNft) (nonce createdIso expiresIso : String) (ex : VerRow)
    (hfind : getVerificationByNft2 db.verifications nft.category
      nft.commitment = some ex)
    (hne : ex.telegram_user_id ≠ userId) :
    addressStep db userId groupId true address (nft :: rest) nonce createdIso
      expiresIso = (db, AddrOutcome.uniquenessConflict, none) := by
  unfold addressStep
  dsimp only
  rw [hfind]
  dsimp only
  rw [if_pos hne]
  simp

/-- Witness for amended claim C5 at a concrete conflicting Binding. -/
theorem session_address_step_rejects_claimed_asset_witness :
    addressStep
      ⟨[⟨1, 7, none, 10, some "c0", some "d0", "addrB", "active"⟩], [], []⟩
      2 10 true "addrA" [⟨"c0", some "d0", "tx", 0⟩] "ab" "c" "e" =
      (⟨[⟨1, 7, none, 10, some "c0", some "d0", "addrB", "active"⟩], [], []⟩,
       AddrOutcome.uniquenessConflict, none) :=
  session_address_step_rejects_claimed_asset
    ⟨[⟨1, 7, none, 10, some "c0", some "d0", "addrB", "active"⟩], [], []⟩
    2 10 "addrA" ⟨"c0", some "d0", "tx", 0⟩ [] "ab" "c" "e"
    ⟨1, 7, none, 10, some "c0", some "d0", "addrB", "active"⟩
    (by decide) (by decide)

/-! ### Claim C6: challenge expiry -/

/-- Counterexample to claim C6: the signature-validation step of the
part_004 verify handler consults neither the challenge's `expires_at` nor
the clock. For a concrete session whose stored Challenge expired at
`2026-01-01T00:10:00.000Z` - long before the (concrete) current time
`2026-02-01 00:00:00` - an attempt with a format-valid signature and a
still-owned asset succeeds and creates an active Binding. -/
theorem expired_challenge_accepted_counterexample :
    (signatureStep
      ⟨[], [⟨1, 5, some 10, "ab", some "bitcoincash:q",
             "2026-01-01T00:00:00.000Z", some "2026-01-01T00:10:00.000Z"⟩],
        [(5, 10)]⟩
      5 none 10
      ⟨1, 5, some 10, "ab", some "bitcoincash:q",
       "2026-01-01T00:00:00.000Z", some "2026-01-01T00:10:00.000Z"⟩
      "bitcoincash:q" true [⟨"c0", some "d0", "tx", 0⟩]).2 = SigOutcome.success
  ∧ strLtB "2026-01-01T00:10:00.000Z".data "2026-02-01 00:00:00".data = true
  ∧ (signatureStep
      ⟨[], [⟨1, 5, some 10, "ab", some "bitcoincash:q",
             "2026-01-01T00:00:00.000Z", some "2026-01-01T00:10:00.000Z"⟩],
        [(5, 10)]⟩
      5 none 10
      ⟨1, 5, some 10, "ab", some "bitcoincash:q",
       "2026-01-01T00:00:00.000Z", some "2026-01-01T00:10:00.000Z"⟩
      "bitcoincash:q" true [⟨"c0", some "d0", "tx", 0⟩]).1.verifications =
      [⟨1, 5, none, 10, some "c0", some "d0", "bitcoincash:q", "active"⟩] := by
  decide

/-- A selected candidate comes from the candidate list. -/
theorem pickLatest_aux (cs : ChTable) : ∀ (acc : Option Challenge)
    (c : Challenge), cs.foldl pickLatestStep acc = some c →
    c ∈ cs ∨ acc = some c := by
  induction cs with
  | nil => intro acc c h; exact Or.inr h
  | cons d ds ih =>
    intro acc c h
    rw [List.foldl_cons] at h
    rcases ih _ c h with hmem | hacc
    · exact Or.inl (List.mem_cons_of_mem _ hmem)
    · cases acc with
      | none =>
        have : d = c := by simpa [pickLatestStep] using hacc
        exact Or.inl (this ▸ List.mem_cons_self d ds)
      | some m =>
        simp only [pickLatestStep] at hacc
        split_ifs at hacc
        · have : d = c := by simpa using hacc
          exact Or.inl (this ▸ List.mem_cons_self d ds)
        · exact Or.inr hacc

/-- Claim C6 as amended: challenge expiry is enforced only at the store
level, not by the verification attempt itself: `getActiveChallenge` never
returns a challenge past its expiry and `cleanupExpiredChallenges` (run at
startup and hourly) deletes exactly the rows whose expiry TEXT compares
below the current-time string; but the part_004 signature-validation step
performs no expiry check at all - with a format-valid signature and a
still-owned asset it succeeds and creates the Binding regardless of any
relation between the Challenge's expiry and the current time. -/
theorem challenge_expiry_enforced_only_by_store :
    (∀ (t : ChTable) (uid : Int) (nowS : String) (c : Challenge),
      getActiveChallenge t uid nowS = some c →
        c.telegram_user_id = uid ∧ challengeUnexpiredB c nowS = true)
  ∧ (∀ (t : ChTable) (nowS : String) (c : Challenge),
      c ∈ cleanupExpiredChallenges t nowS ↔
        c ∈ t ∧ (match c.expires_at with
                 | none => true
                 | some e => !strLtB e.data nowS.data) = true)
  ∧ (∀ (db : DbState) (uid : Int) (un : Option String) (gid : Int)
      (ch : Challenge) (addr : String) (nft : OwnedNft)
      (rest : List OwnedNft) (vt : VerTable),
      addVerification db.verifications uid un gid nft.category
        nft.commitment addr = some vt →
      (signatureStep db uid un gid ch addr true (nft :: rest)).2 =
        SigOutcome.success) := by
  refine ⟨?_, ?_, ?_⟩
  · intro t uid nowS c h
    unfold getActiveChallenge pickLatest at h
    rcases pickLatest_aux _ none c h with hmem | hacc
    · rw [List.mem_filter, Bool.and_eq_true] at hmem
      exact ⟨by simpa using hmem.2.1, hmem.2.2⟩
    · cases hacc
  · intro t nowS c
    unfold cleanupExpiredChallenges
    rw [List.mem_filter]
  · intro db uid un gid ch addr nft rest vt h
    unfold signatureStep
    dsimp only
    rw [h]
    simp

/-- Witness for amended claim C6 at a concrete unexpired challenge: it is
returned by `getActiveChallenge` and satisfies the expiry filter. -/
theorem challenge_expiry_enforced_only_by_store_witness :
    (⟨1, 5, some 10, "ab", some "bitcoincash:q", "2026-01-01T00:00:00.000Z",
       some "2026-01-01T00:10:00.000Z"⟩ : Challenge).telegram_user_id = 5
  ∧ challengeUnexpiredB
      ⟨1, 5, some 10, "ab", some "bitcoincash:q", "2026-01-01T00:00:00.000Z",
       some "2026-01-01T00:10:00.000Z"⟩ "2026-01-01 00:00:00" = true :=
  challenge_expiry_enforced_only_by_store.1
    [⟨1, 5, some 10, "ab", some "bitcoincash:q", "2026-01-01T00:00:00.000Z",
      some "2026-01-01T00:10:00.000Z"⟩] 5 "2026-01-01 00:00:00"
    ⟨1, 5, some 10, "ab", some "bitcoincash:q", "2026-01-01T00:00:00.000Z",
     some "2026-01-01T00:10:00.000Z"⟩ (by decide)

/-! ### Claim C7: warm-up window and per-address confinement -/

/-- `applyStatusUpd` preserves the address column. -/
theorem applyStatusUpd_addr (id : Nat) (s : String) (nc : Option String)
    (ncm : Option (Option String)) (r : VerRow) :
    (applyStatusUpd id s nc ncm r).bch_address = r.bch_address := by
  unfold applyStatusUpd; split_ifs <;> rfl

/-- `applyNftUpd` preserves the address column. -/
theorem applyNftUpd_addr (id : Nat) (cat : String) (comm : Option String)
    (r : VerRow) : (applyNftUpd id cat comm r).bch_address = r.bch_address := by
  unfold applyNftUpd; split_ifs <;> rfl

/-- Filtering commutes with a row map that preserves the filter value and
fixes every retained row. -/
theorem filter_map_fix (t : VerTable) (f : VerRow → VerRow) (p : VerRow → Bool)
    (hp : ∀ r, p (f r) = p r) (hfixp : ∀ r ∈ t, p r = true → f r = r) :
    (t.map f).filter p = t.filter p := by
  induction t with
  | nil => rfl
  | cons x xs ih =>
    have ih' := ih (fun r hr => hfixp r (List.mem_cons_of_mem x hr))
    rw [List.map_cons, List.filter_cons, List.filter_cons, hp x]
    cases hpx : p x
    · simpa using ih'
    · rw [hfixp x (List.mem_cons_self x xs) hpx]
      simpa using ih'

/-- Dropping a pre-filter that keeps every row the post-filter keeps does
not change the result. -/
theorem filter_filter_superset (t : VerTable) (p q : VerRow → Bool)
    (h : ∀ r ∈ t, p r = true → q r = true) :
    (t.filter q).filter p = t.filter p := by
  induction t with
  | nil => rfl
  | cons x xs ih =>
    have ih' := ih (fun r hr => h r (List.mem_cons_of_mem x hr))
    cases hqx : q x
    · have hpx : p x = false := by
        cases hpx : p x
        · rfl
        · exact absurd (h x (List.mem_cons_self x xs) hpx) (by simp [hqx])
      rw [List.filter_cons, List.filter_cons, hqx, hpx]
      simpa using ih'
    · rw [List.filter_cons, hqx]
      simp only [if_true]
      rw [List.filter_cons, List.filter_cons]
      cases hpx : p x
      · simpa using ih'
      · simp only [if_true]
        rw [ih']

/-- Every row of a `rowStep` result shadows a row of the input table with
the same id and address. -/
theorem rowStep_shadow (oracle : Int → List OwnedNft) (v : VerRow)
    (t : VerTable) : ∀ x ∈ rowStep oracle v t,
    ∃ x0 ∈ t, x.id = x0.id ∧ x.bch_address = x0.bch_address := by
  unfold rowStep
  intro x hx
  rcases hdec : resolveBinding v.status v.nft_category v.nft_commitment
      (oracle v.group_id) with nft | _ | _ | nft <;>
    (rw [hdec] at hx; dsimp only at hx)
  · cases hupd : updateVerificationStatus t v.id "active" (some nft.category)
        (some nft.commitment) with
    | none =>
      rw [hupd] at hx
      exact ⟨x, by simpa using hx, rfl, rfl⟩
    | some t' =>
      rw [hupd] at hx
      obtain ⟨rfl, -⟩ := updateVerificationStatus_some hupd
      obtain ⟨x0, hx0, rfl⟩ := List.mem_map.mp (by simpa using hx)
      exact ⟨x0, hx0, applyStatusUpd_id _ _ _ _ x0, applyStatusUpd_addr _ _ _ _ x0⟩
  · exact ⟨x, hx, rfl, rfl⟩
  · exact ⟨x, List.mem_of_mem_filter hx, rfl, rfl⟩
  · cases hupd : updateVerificationNft t v.id nft.category nft.commitment with
    | none =>
      rw [hupd] at hx
      exact ⟨x, by simpa using hx, rfl, rfl⟩
    | some t' =>
      rw [hupd] at hx
      obtain ⟨rfl, -⟩ := updateVerificationNft_some hupd
      obtain ⟨x0, hx0, rfl⟩ := List.mem_map.mp (by simpa using hx)
      exact ⟨x0, hx0, applyNftUpd_id _ _ _ x0, applyNftUpd_addr _ _ _ x0⟩

/-- A `rowStep` for a row of address `a` does not change the sublist of
rows whose address differs from `a`, provided every row sharing the
stepped row's id has address `a`. -/
theorem rowStep_filter_ne (oracle : Int → List OwnedNft) (v : VerRow)
    (t : VerTable) (a : String)
    (hv : ∀ x ∈ t, x.id = v.id → x.bch_address = a) :
    (rowStep oracle v t).filter (fun r => !(r.bch_address == a)) =
      t.filter (fun r => !(r.bch_address == a)) := by
  have hne : ∀ x ∈ t, (!(x.bch_address == a)) = true → x.id ≠ v.id := by
    intro x hx hpx hid
    rw [hv x hx hid] at hpx
    simp at hpx
  unfold rowStep
  rcases hdec : resolveBinding v.status v.nft_category v.nft_commitment
      (oracle v.group_id) with nft | _ | _ | nft
  case activate =>
    dsimp only
    cases hupd : updateVerificationStatus t v.id "active" (some nft.category)
        (some nft.commitment) with
    | none => rfl
    | some t' =>
      obtain ⟨rfl, -⟩ := updateVerificationStatus_some hupd
      dsimp only [Option.getD]
      exact filter_map_fix t _ _ (fun r => by rw [applyStatusUpd_addr])
        (fun r hr hpr => applyStatusUpd_fix _ _ _ _ r (hne r hr hpr))
  case noChange => rfl
  case deactivate =>
    dsimp only
    exact filter_filter_superset t _ (fun r => !(r.id == v.id))
      (fun r hr hpr => by simpa using hne r hr hpr)
  case switch =>
    dsimp only
    cases hupd : updateVerificationNft t v.id nft.category nft.commitment with
    | none => rfl
    | some t' =>
      obtain ⟨rfl, -⟩ := updateVerificationNft_some hupd
      dsimp only [Option.getD]
      exact filter_map_fix t _ _ (fun r => by rw [applyNftUpd_addr])
        (fun r hr hpr => applyNftUpd_fix _ _ _ r (hne r hr hpr))

/-- The reconciliation loop over a snapshot of address-`a` rows leaves the
rows of other addresses untouched. -/
theorem checkAddressLoop_filter_ne (oracle : Int → List OwnedNft) (a : String) :
    ∀ (snap : List VerRow) (t : VerTable),
    (∀ v ∈ snap, ∀ x ∈ t, x.id = v.id → x.bch_address = a) →
    (checkAddressLoop oracle snap t).filter (fun r => !(r.bch_address == a)) =
      t.filter (fun r => !(r.bch_address == a)) := by
  intro snap
  induction snap with
  | nil => intro t _; rfl
  | cons v vs ih =>
    intro t h
    rw [checkAddressLoop]
    rw [ih (rowStep oracle v t) ?_,
      rowStep_filter_ne oracle v t a (h v (List.mem_cons_self v vs))]
    intro v' hv' x hx hid
    obtain ⟨x0, hx0, hidx, haddr⟩ := rowStep_shadow oracle v t x hx
    rw [haddr]
    exact h v' (List.mem_cons_of_mem v hv') x0 hx0 (hidx ▸ hid)

/-- Claim C7: notifications during the warm-up window cause no state
change; after the window a notification for a monitored address runs the
targeted re-check for exactly that address; and that re-check never
touches a Binding of a different address (the sublist of other-address
rows is unchanged, in content and order). -/
theorem notification_warmup_and_confinement :
    (∀ (ms : MonitorSt) (a : String) (now : Nat)
        (oracle : Int → List OwnedNft) (t : VerTable) (t0 : Nat),
      lookupAddedTime ms a = some t0 → now - t0 < subscriptionWarmupMs →
      handleNotification ms (some a) now oracle t = t)
  ∧ (∀ (ms : MonitorSt) (a : String) (now : Nat)
        (oracle : Int → List OwnedNft) (t : VerTable) (t0 : Nat),
      ms.entries.any (fun e => e.fst == a) = true →
      lookupAddedTime ms a = some t0 → subscriptionWarmupMs ≤ now - t0 →
      handleNotification ms (some a) now oracle t =
        checkAddressVerifications oracle a t)
  ∧ (∀ (oracle : Int → List OwnedNft) (a : String) (t : VerTable),
      idsNodupB t = true →
      (checkAddressVerifications oracle a t).filter
        (fun r => !(r.bch_address == a)) =
      t.filter (fun r => !(r.bch_address == a))) := by
  refine ⟨?_, ?_, ?_⟩
  · intro ms a now oracle t t0 hlk hwin
    unfold handleNotification
    dsimp only
    rw [hlk]
    cases hmon : ms.entries.any (fun e => e.fst == a)
    · simp [hmon]
    · simp [hmon, hwin]
  · intro ms a now oracle t t0 hmon hlk hwin
    unfold handleNotification
    dsimp only
    rw [hlk]
    simp only [hmon, Bool.not_true, Bool.false_eq_true, if_false,
      Option.getD_some]
    rw [if_neg (by omega)]
  · intro oracle a t hnd
    unfold checkAddressVerifications
    apply checkAddressLoop_filter_ne
    intro v hv x hx hid
    rw [List.mem_filter] at hv
    have hva : v.bch_address = a := by simpa using hv.2
    rw [idsNodupB_inj t hnd x hx v hv.1 hid]
    exact hva

/-- Witness for claim C7: a concrete notification 1 second after
subscribing (inside the 3-second warm-up) leaves a one-row table
unchanged. -/
theorem notification_warmup_and_confinement_witness :
    handleNotification ⟨[("addrA", 1000)]⟩ (some "addrA") 2000 oracleCD
      [⟨2, 2, none, 2, none, none, "addrA", "pending"⟩] =
      [⟨2, 2, none, 2, none, none, "addrA", "pending"⟩] :=
  notification_warmup_and_confinement.1 ⟨[("addrA", 1000)]⟩ "addrA" 2000
    oracleCD [⟨2, 2, none, 2, none, none, "addrA", "pending"⟩] 1000
    (by decide) (by decide)

/-! ### Claim C10: challenge render/parse roundtrip -/

/-- A digit value below ten renders to a decimal digit character. -/
theorem digitCh_isDigit (d : Nat) (h : d < 10) : isDigitCh (digitCh d) = true := by
  interval_cases d <;> decide

/-- Rendering then reading a digit value below ten is the identity. -/
theorem digitCh_val (d : Nat) (h : d < 10) : (digitCh d).toNat - 48 = d := by
  interval_cases d <;> decide

/-- Decimal renderings are never empty. -/
theorem natToChars_ne_nil (n : Nat) : natToChars n ≠ [] := by
  rw [natToChars]
  split_ifs <;> simp

/-- Every character of a decimal rendering is a digit. -/
theorem natToChars_all_digits (n : Nat) :
    ∀ c ∈ natToChars n, isDigitCh c = true := by
  induction n using Nat.strong_induction_on with
  | _ n ih =>
    rw [natToChars]
    split_ifs with h
    · intro c hc
      rw [List.mem_singleton] at hc
      exact hc ▸ digitCh_isDigit n h
    · intro c hc
      rcases List.mem_append.mp hc with h1 | h2
      · exact ih (n / 10) (Nat.div_lt_self (by omega) (by omega)) c h1
      · rw [List.mem_singleton] at h2
        exact h2 ▸ digitCh_isDigit (n % 10) (Nat.mod_lt n (by omega))

/-- Reading one more trailing digit. -/
theorem natOfDigits_append_digit (a : List Char) (c : Char) :
    natOfDigits (a ++ [c]) = 10 * natOfDigits a + (c.toNat - 48) := by
  unfold natOfDigits
  rw [List.foldl_append]
  rfl

/-- `parseInt` inverts the decimal rendering of a natural number. -/
theorem natOfDigits_natToChars (n : Nat) : natOfDigits (natToChars n) = n := by
  induction n using Nat.strong_induction_on with
  | _ n ih =>
    rw [natToChars]
    split_ifs with h
    · have := digitCh_val n h
      simpa [natOfDigits] using this
    · rw [natOfDigits_append_digit,
        ih (n / 10) (Nat.div_lt_self (by omega) (by omega)),
        digitCh_val (n % 10) (Nat.mod_lt n (by omega))]
      omega

/-- Splitting at an explicit newline after a newline-free first line. -/
theorem splitLines_append (a r : List Char) (h : '\n' ∉ a) :
    splitLines (a ++ '\n' :: r) = a :: splitLines r := by
  induction a with
  | nil => simp [splitLines]
  | cons c cs ih =>
    have hc : c ≠ '\n' := fun hce => h (hce ▸ List.mem_cons_self c cs)
    have hcs : '\n' ∉ cs := fun hm => h (List.mem_cons_of_mem c hm)
    rw [List.cons_append, splitLines, if_neg hc, ih hcs]

/-- A newline-free text is a single line. -/
theorem splitLines_no_newline (a : List Char) (h : '\n' ∉ a) :
    splitLines a = [a] := by
  induction a with
  | nil => rfl
  | cons c cs ih =>
    have hc : c ≠ '\n' := fun hce => h (hce ▸ List.mem_cons_self c cs)
    have hcs : '\n' ∉ cs := fun hm => h (List.mem_cons_of_mem c hm)
    rw [splitLines, if_neg hc, ih hcs]

/-- `takeWhile` over a block of accepted characters stops exactly at the
first rejected one. -/
theorem takeWhile_append_stop (p : Char → Bool) (A : List Char) (x : Char)
    (R : List Char) (hA : ∀ c ∈ A, p c = true) (hx : p x = false) :
    (A ++ x :: R).takeWhile p = A := by
  induction A with
  | nil => simp [List.takeWhile_cons, hx]
  | cons c cs ih =>
    rw [List.cons_append, List.takeWhile_cons, hA c (List.mem_cons_self c cs)]
    rw [ih (fun d hd => hA d (List.mem_cons_of_mem c hd))]
    simp

/-- The group-line regex recovers the integer from a rendered first line,
whatever precedes the final parenthesized id. -/
theorem matchGroupLine_render (pre : List Char) (i : Int) :
    matchGroupLine (pre ++ '(' :: (intToChars i ++ [')'])) = some i := by
  unfold matchGroupLine
  by_cases hi : i < 0
  · have hx : intToChars i = '-' :: natToChars i.natAbs := by
      unfold intToChars
      rw [if_pos hi]
    set D := natToChars i.natAbs with hD
    have hrev : (pre ++ '(' :: (intToChars i ++ [')'])).reverse =
        ')' :: (D.reverse ++ '-' :: '(' :: pre.reverse) := by
      rw [hx]
      simp
    rw [hrev]
    dsimp only
    rw [if_pos rfl]
    have htw : (D.reverse ++ '-' :: '(' :: pre.reverse).takeWhile isDigitCh =
        D.reverse := by
      apply takeWhile_append_stop
      · intro c hc
        exact natToChars_all_digits i.natAbs c (List.mem_reverse.mp hc)
      · decide
    rw [htw]
    rw [if_neg (by simpa using natToChars_ne_nil i.natAbs)]
    rw [List.drop_left]
    dsimp only
    rw [if_pos rfl, if_pos rfl]
    rw [List.reverse_reverse, natOfDigits_natToChars]
    congr 1
    omega
  · have hx : intToChars i = natToChars i.toNat := by
      unfold intToChars
      rw [if_neg hi]
    set D := natToChars i.toNat with hD
    have hrev : (pre ++ '(' :: (intToChars i ++ [')'])).reverse =
        ')' :: (D.reverse ++ '(' :: pre.reverse) := by
      rw [hx]
      simp
    rw [hrev]
    dsimp only
    rw [if_pos rfl]
    have htw : (D.reverse ++ '(' :: pre.reverse).takeWhile isDigitCh =
        D.reverse := by
      apply takeWhile_append_stop
      · intro c hc
        exact natToChars_all_digits i.toNat c (List.mem_reverse.mp hc)
      · decide
    rw [htw]
    rw [if_neg (by simpa using natToChars_ne_nil i.toNat)]
    rw [List.drop_left]
    dsimp only
    rw [if_neg (by decide), if_pos rfl]
    rw [List.reverse_reverse, natOfDigits_natToChars]
    congr 1
    omega

/-- The nonce-line regex recovers a nonempty hex nonce from a rendered
second line. -/
theorem matchNonceLine_render (h : List Char) (hne : h ≠ [])
    (hhex : ∀ c ∈ h, isHexCh c = true) :
    matchNonceLine ("nonce=".data ++ h) = some h := by
  unfold matchNonceLine
  have htake : ("nonce=".data ++ h).take 6 = "nonce=".data :=
    List.take_left "nonce=".data h
  have hdrop : ("nonce=".data ++ h).drop 6 = h :=
    List.drop_left "nonce=".data h
  rw [htake, hdrop]
  rw [if_pos ⟨by decide, hne, List.all_eq_true.mpr hhex⟩]

/-- The time-line regex recovers the timestamp from a rendered third
line. -/
theorem matchTimeLine_render (ts : Nat) :
    matchTimeLine ("time=".data ++ natToChars ts) = some ts := by
  unfold matchTimeLine
  have htake : ("time=".data ++ natToChars ts).take 5 = "time=".data :=
    List.take_left "time=".data (natToChars ts)
  have hdrop : ("time=".data ++ natToChars ts).drop 5 = natToChars ts :=
    List.drop_left "time=".data (natToChars ts)
  rw [htake, hdrop]
  rw [if_pos ⟨rfl, natToChars_ne_nil ts,
    List.all_eq_true.mpr (natToChars_all_digits ts)⟩]
  rw [natOfDigits_natToChars]

/-- Dropping as many characters as `takeWhile` kept is `dropWhile`. -/
theorem drop_takeWhile_length (p : Char → Bool) (l : List Char) :
    l.drop (l.takeWhile p).length = l.dropWhile p := by
  induction l with
  | nil => rfl
  | cons c cs ih =>
    rw [List.takeWhile_cons, List.dropWhile_cons]
    cases hpc : p c
    · simp
    · simpa using ih

/-- A successful group-line match certifies the line's shape. -/
theorem matchGroupLine_format (s : List Char) (i : Int)
    (h : matchGroupLine s = some i) : groupLineFormat s := by
  unfold matchGroupLine at h
  cases hrev : s.reverse with
  | nil => rw [hrev] at h; cases h
  | cons c0 body =>
    rw [hrev] at h
    dsimp only at h
    by_cases hc0 : c0 = ')'
    case neg => rw [if_neg hc0] at h; cases h
    rw [if_pos hc0] at h
    subst hc0
    by_cases hne : body.takeWhile isDigitCh = []
    · rw [if_pos hne] at h; cases h
    rw [if_neg hne] at h
    have hs : s = body.reverse ++ [')'] := by
      have h2 := congrArg List.reverse hrev
      simpa using h2
    have hdrop : body.drop (body.takeWhile isDigitCh).length =
        body.dropWhile isDigitCh := drop_takeWhile_length _ _
    have hdigits : ∀ c ∈ (body.takeWhile isDigitCh).reverse,
        isDigitCh c = true := by
      intro c hc
      exact List.mem_takeWhile_imp (List.mem_reverse.mp hc)
    have hrne : (body.takeWhile isDigitCh).reverse ≠ [] := by
      simpa using hne
    cases hdw : body.drop (body.takeWhile isDigitCh).length with
    | nil => rw [hdw] at h; cases h
    | cons c1 rest1 =>
      rw [hdw] at h
      have hbody : body = body.takeWhile isDigitCh ++ c1 :: rest1 := by
        conv_lhs => rw [← List.takeWhile_append_dropWhile isDigitCh body]
        rw [← hdrop, hdw]
      dsimp only at h
      by_cases hc1 : c1 = '-'
      · rw [if_pos hc1] at h
        subst hc1
        cases rest1 with
        | nil => cases h
        | cons c2 t2 =>
          dsimp only at h
          by_cases hc2 : c2 = '('
          · subst hc2
            refine ⟨t2.reverse, ['-'], (body.takeWhile isDigitCh).reverse,
              Or.inr rfl, hrne, hdigits, ?_⟩
            rw [hs]
            conv_lhs => rw [hbody]
            simp
          · rw [if_neg hc2] at h; cases h
      · rw [if_neg hc1] at h
        by_cases hc1' : c1 = '('
        · subst hc1'
          refine ⟨rest1.reverse, [], (body.takeWhile isDigitCh).reverse,
            Or.inl rfl, hrne, hdigits, ?_⟩
          rw [hs]
          conv_lhs => rw [hbody]
          simp
        · rw [if_neg hc1'] at h; cases h

/-- A successful nonce-line match certifies the line's shape. -/
theorem matchNonceLine_format (s h' : List Char)
    (h : matchNonceLine s = some h') : nonceLineFormat s := by
  unfold matchNonceLine at h
  dsimp only at h
  split_ifs at h with hcond
  exact ⟨s.take 6, s.drop 6, (List.take_append_drop 6 s).symm, hcond.1,
    hcond.2.1, fun c hc => List.all_eq_true.mp hcond.2.2 c hc⟩

/-- A successful time-line match certifies the line's shape. -/
theorem matchTimeLine_format (s : List Char) (ts : Nat)
    (h : matchTimeLine s = some ts) : timeLineFormat s := by
  unfold matchTimeLine at h
  dsimp only at h
  split_ifs at h with hcond
  refine ⟨s.drop 5, hcond.2.1, fun c hc => List.all_eq_true.mp hcond.2.2 c hc, ?_⟩
  conv_lhs => rw [← List.take_append_drop 5 s]
  rw [hcond.1]

/-- The decimal rendering of an integer contains no newline. -/
theorem intToChars_no_newline (i : Int) : '\n' ∉ intToChars i := by
  intro hmem
  unfold intToChars at hmem
  have hdig : ∀ (m : Nat), '\n' ∈ natToChars m → False := by
    intro m hm
    have := natToChars_all_digits m _ hm
    simp [isDigitCh] at this
  split_ifs at hmem
  · rcases List.mem_cons.mp hmem with hmem | hmem
    · cases hmem
    · exact hdig _ hmem
  · exact hdig _ hmem

/-- Lower-case hex characters are hex characters. -/
theorem isLowerHexCh_isHexCh (c : Char) (h : isLowerHexCh c = true) :
    isHexCh c = true := by
  unfold isLowerHexCh at h
  unfold isHexCh
  rcases Bool.or_eq_true_iff.mp h with h1 | h1 <;> simp [h1]

/-- Claim C10: `parseChallengeMessage` inverts
`generateChallengeMessage` - for every newline-free space name, every
integer space id, every nonempty lowercase-hex nonce, and every timestamp,
parsing the rendered text recovers exactly the id, nonce and timestamp;
and any text not in the three-line challenge format parses to `none`
rather than failing. -/
theorem challenge_render_parse_roundtrip :
    (∀ (name : List Char) (id : Int) (nonce : List Char) (ts : Nat),
      '\n' ∉ name → nonce ≠ [] → (∀ c ∈ nonce, isLowerHexCh c = true) →
      parseChallengeMessage (generateChallengeMessage name id nonce ts) =
        some ⟨id, nonce, ts⟩)
  ∧ (∀ message : List Char, ¬ challengeFormat message →
      parseChallengeMessage message = none) := by
  constructor
  · intro name id nonce ts hnm hne hhex
    have hL0 : generateChallengeMessage name id nonce ts =
        (("Verify NFT ownership for \"".data ++ name ++ ['"', ' ']) ++
          '(' :: (intToChars id ++ [')'])) ++ '\n' ::
        (("nonce=".data ++ nonce) ++ '\n' :: ("time=".data ++ natToChars ts)) := by
      unfold generateChallengeMessage
      have hdq : "\" (".data = ['"', ' ', '('] := rfl
      rw [hdq]
      simp
    have hnl0 : '\n' ∉ (("Verify NFT ownership for \"".data ++ name ++
        ['"', ' ']) ++ '(' :: (intToChars id ++ [')'])) := by
      intro hmem
      simp only [List.mem_append, List.mem_cons] at hmem
      rcases hmem with ((h1 | h1) | h1) | h1 | h1 | h1
      · revert h1; decide
      · exact hnm h1
      · revert h1; decide
      · cases h1
      · exact intToChars_no_newline id h1
      · revert h1; decide
    have hnl1 : '\n' ∉ ("nonce=".data ++ nonce) := by
      intro hmem
      rcases List.mem_append.mp hmem with h1 | h1
      · revert h1; decide
      · have := hhex _ h1
        simp [isLowerHexCh, isDigitCh] at this
    have hnl2 : '\n' ∉ ("time=".data ++ natToChars ts) := by
      intro hmem
      rcases List.mem_append.mp hmem with h1 | h1
      · revert h1; decide
      · have := natToChars_all_digits ts _ h1
        simp [isDigitCh] at this
    unfold parseChallengeMessage
    rw [hL0, splitLines_append _ _ hnl0, splitLines_append _ _ hnl1,
      splitLines_no_newline _ hnl2]
    dsimp only
    rw [matchGroupLine_render, matchNonceLine_render nonce hne
      (fun c hc => isLowerHexCh_isHexCh c (hhex c hc)), matchTimeLine_render]
  · intro msg hfmt
    cases hp : parseChallengeMessage msg with
    | none => rfl
    | some r =>
      exfalso
      apply hfmt
      unfold parseChallengeMessage at hp
      cases hsl : splitLines msg with
      | nil => rw [hsl] at hp; cases hp
      | cons l0 rest0 =>
        cases rest0 with
        | nil => rw [hsl] at hp; cases hp
        | cons l1 rest1 =>
          cases rest1 with
          | nil => rw [hsl] at hp; cases hp
          | cons l2 rest2 =>
            rw [hsl] at hp
            dsimp only at hp
            cases hg : matchGroupLine l0 with
            | none => rw [hg] at hp; cases hp
            | some gv =>
              rw [hg] at hp
              cases hn : matchNonceLine l1 with
              | none => rw [hn] at hp; cases hp
              | some nv =>
                rw [hn] at hp
                cases ht : matchTimeLine l2 with
                | none => rw [ht] at hp; cases hp
                | some tv =>
                  exact ⟨l0, l1, l2, rest2, hsl,
                    matchGroupLine_format l0 gv hg,
                    matchNonceLine_format l1 nv hn,
                    matchTimeLine_format l2 tv ht⟩

/-- Witness for claim C10 at a concrete space name, negative space id,
nonce and timestamp. -/
theorem challenge_render_parse_roundtrip_witness :
    parseChallengeMessage
      (generateChallengeMessage "My Group".data (-1001234) "ab12".data 1700000000) =
      some ⟨-1001234, "ab12".data, 1700000000⟩ :=
  challenge_render_parse_roundtrip.1 "My Group".data (-1001234) "ab12".data
    1700000000 (by decide) (by decide) (by decide)

end NftBouncer
